import Mathlib

/-!
Verification development for the stratified-selection core
(`stratification.py` of the sortitionfoundation/stratification-app repo).

The Python source is shallowly embedded: pure functions become Lean
functions, the mutable `categories` / `people` dictionaries become
association lists threaded through explicit state passing, Python
exceptions become `Except PyErr`, Python floats become `ℚ` (all the
concrete numbers appearing in the verified runs are exactly
representable), and the MIP/LP/convex solvers become oracles: a solver
invocation is a parameter that reports either an assignment of the
model variables or a non-optimal status, and solver *correctness*
(an optimal report really is a feasible, objective-maximal assignment)
is an explicit hypothesis of the theorems that need it.
-/

namespace Strat

/-- Numerical tolerance `EPS = 0.0005` from the source. -/
def EPS : ℚ := 5 / 10000

/-- Numerical tolerance `EPS_NASH = 0.1` from the source. -/
def EPS_NASH : ℚ := 1 / 10

/-- Numerical tolerance `EPS2 = 0.00000001` from the source. -/
def EPS2 : ℚ := 1 / 100000000

/-- One `(feature, value)` record of the `categories` dictionary:
`{"min": …, "max": …, "min_flex": …, "max_flex": …, "selected": …, "remaining": …}`. -/
structure CatItem where
  cmin : Int
  cmax : Int
  cminFlex : Int
  cmaxFlex : Int
  selected : Int
  remaining : Int
deriving DecidableEq

instance : Inhabited CatItem := ⟨⟨0, 0, 0, 0, 0, 0⟩⟩

/-- `categories` : feature ↦ value ↦ quota record, as an association list
(insertion order of a Python dict is preserved). -/
abbrev Cats := List (String × List (String × CatItem))

/-- `people` : id ↦ (feature ↦ value), as an association list. -/
abbrev People := List (String × List (String × String))

/-- `columns_data` : id ↦ (column ↦ cell), as an association list. -/
abbrev ColumnsData := List (String × List (String × String))

/-- `households` : id ↦ household number (the dict computed by
`_compute_households`). -/
abbrev Households := List (String × Nat)

/-- Association-list lookup with a default (Python `d[k]` on keys we
know are present; the default is never reached on well-formed inputs). -/
def lookupD {α : Type} (l : List (String × α)) (k : String) (d : α) : α :=
  (l.lookup k).getD d

/-- `person[feature]` — the value a person has for a feature. -/
def personValue (person : List (String × String)) (f : String) : String :=
  lookupD person f ""

/-- The 0/1 value of an agent variable, read as an integer. -/
def indicator (a : String → Bool) (id : String) : Int :=
  if a id then 1 else 0

/-- `Σᵢ xᵢ` over all agents — the left side of the panel-size constraint
`mip.xsum(agent_vars.values()) == number_people_wanted`. -/
def sumSelected (people : People) (a : String → Bool) : Int :=
  (people.map (fun p => indicator a p.1)).sum

/-- `Σ_{i : person i has f = v} xᵢ` — the left side of the quota
constraints in `_setup_committee_generation`. -/
def countFV (people : People) (f v : String) (a : String → Bool) : Int :=
  ((people.filter (fun p => personValue p.2 f == v)).map (fun p => indicator a p.1)).sum

/-- The members of one household, in the order `people_by_household`
collects them. -/
def householdMembers (households : Households) (h : Nat) : List String :=
  (households.filter (fun p => p.2 == h)).map Prod.fst

/-- The constraint set of the committee-generation ILP built by
`_setup_committee_generation`: panel size is exactly `k`; each
`(feature, value)` count lies within its quotas; when
`check_same_address` is on, at most one member per household of size
at least two. -/
def ModelConstraints (categories : Cats) (people : People) (k : Int)
    (checkSameAddress : Bool) (households : Households) (a : String → Bool) : Prop :=
  sumSelected people a = k ∧
  (∀ fc ∈ categories, ∀ vc ∈ fc.2,
    vc.2.cmin ≤ countFV people fc.1 vc.1 a ∧ countFV people fc.1 vc.1 a ≤ vc.2.cmax) ∧
  (checkSameAddress = true →
    ∀ h ∈ households.map Prod.snd, 2 ≤ (householdMembers households h).length →
      ((householdMembers households h).map (indicator a)).sum ≤ 1)

instance (categories : Cats) (people : People) (k : Int)
    (checkSameAddress : Bool) (households : Households) (a : String → Bool) :
    Decidable (ModelConstraints categories people k checkSameAddress households a) := by
  unfold ModelConstraints
  infer_instance

/-- `_ilp_results_to_committee`: the ids whose binary variable is set
(`x > 0.5` on a 0/1 solution means `x = 1`), as a frozenset. -/
def ilpResultsToCommittee (people : People) (a : String → Bool) : Finset String :=
  ((people.map Prod.fst).filter a).toFinset

/-- The selected rows of the people table (used to state committee
properties without going through id lookups). -/
def selectedPeople (people : People) (a : String → Bool) : People :=
  people.filter (fun p => a p.1)

/-- How many members of panel `P` have value `v` for feature `f`. -/
def committeeCount (people : People) (P : Finset String) (f v : String) : Int :=
  ((people.filter (fun p => decide (p.1 ∈ P) && (personValue p.2 f == v))).length : Int)

/-- The quota clause of spec §8 property 1 for a returned panel. -/
def CommitteeSatisfiesQuotas (categories : Cats) (people : People) (P : Finset String) : Prop :=
  ∀ fc ∈ categories, ∀ vc ∈ fc.2,
    vc.2.cmin ≤ committeeCount people P fc.1 vc.1 ∧
    committeeCount people P fc.1 vc.1 ≤ vc.2.cmax

instance (categories : Cats) (people : People) (P : Finset String) :
    Decidable (CommitteeSatisfiesQuotas categories people P) := by
  unfold CommitteeSatisfiesQuotas
  infer_instance

/-- The household clause of spec §8 property 1: no two members of `P`
share a household. -/
def HouseholdExclusive (households : Households) (P : Finset String) : Prop :=
  ∀ p ∈ households, ∀ q ∈ households, p.1 ∈ P → q.1 ∈ P → p.1 ≠ q.1 → p.2 ≠ q.2

instance (households : Households) (P : Finset String) :
    Decidable (HouseholdExclusive households P) := by
  unfold HouseholdExclusive
  infer_instance

/-- The Python exceptions of the core, with the payloads the code attaches.
`assertionError` stands for a failing Python `assert`. -/
inductive PyErr where
  | valueError (msg : String)
  | selectionError (msg : String)
  | infeasibleQuotas (quotas : List ((String × String) × (Int × Int))) (output : List String)
  | infeasibleQuotasCantRelax (msg : String)
  | assertionError
deriving DecidableEq

/-- Oracle for the `random` module: an arbitrary stream of naturals and a
cursor.  Every theorem below quantifies over the stream, so the results
hold for every realisation of the randomness. -/
structure RandState where
  vals : Nat → Nat
  idx : Nat

/-- `random.randint(lo, hi)` (both ends inclusive), driven by the oracle. -/
def randint (lo hi : Int) (r : RandState) : Int × RandState :=
  (lo + (r.vals r.idx : Int) % (hi - lo + 1), ⟨r.vals, r.idx + 1⟩)

/-- Pointwise update of one entry of an association list (Python
`d[k] = f(d[k])` on a present key). -/
def updateAssoc {α : Type} (l : List (String × α)) (k : String) (f : α → α) :
    List (String × α) :=
  l.map (fun p => if p.1 == k then (p.1, f p.2) else p)

/-- Update of one `categories[f][v]` record. -/
def updateCat (categories : Cats) (f v : String) (g : CatItem → CatItem) : Cats :=
  updateAssoc categories f (fun vals => updateAssoc vals v g)

/-- `really_delete_person`: bump `selected` (when the person was chosen),
decrement `remaining` for every value the person holds — failing when a
value runs out of remaining agents below its lower quota — and remove the
person from the pool.  Dictionary reads are total with defaults; the
verified runs never read a missing key. -/
def reallyDeletePerson (categories : Cats) (people : People) (pkey : String)
    (selectedFlag : Bool) : Except PyErr (Cats × People) := do
  let person := lookupD people pkey []
  let categories ← person.foldlM (fun (cats : Cats) pc => do
    let item := lookupD (lookupD cats pc.1 []) pc.2 default
    let item := if selectedFlag then { item with selected := item.selected + 1 } else item
    let item := { item with remaining := item.remaining - 1 }
    if item.remaining = 0 ∧ item.selected < item.cmin then
      throw (PyErr.selectionError ("FAIL in delete_person: no one left in " ++ pc.2))
    else
      pure (updateCat cats pc.1 pc.2 (fun _ => item))) categories
  pure (categories, people.filter (fun p => !(p.1 == pkey)))

/-- `delete_all_in_cat`: delete every remaining pool member holding a given
value, updating the `remaining` counters of every value they hold. -/
def deleteAllInCat (categories : Cats) (people : People)
    (catCheckKey catCheckValue : String) : Except PyErr (Nat × Nat × Cats × People) := do
  let st ← people.foldlM (fun (st : Cats × List String) p => do
    if personValue p.2 catCheckKey == catCheckValue then do
      let cats ← (st.1.map Prod.fst).foldlM (fun (cats : Cats) catKey => do
        let v := personValue p.2 catKey
        let item := lookupD (lookupD cats catKey []) v default
        let item := { item with remaining := item.remaining - 1 }
        if item.remaining = 0 ∧ item.selected < item.cmin then
          throw (PyErr.selectionError
            ("SELECTION IMPOSSIBLE: FAIL in delete_all_in_cat as after previous deletion no one/not enough left in " ++ catKey))
        else
          pure (updateCat cats catKey v (fun _ => item))) st.1
      pure (cats, st.2 ++ [p.1])
    else pure st) (categories, ([] : List String))
  let peopleLeft := people.filter (fun p => !(st.2.contains p.1))
  pure (st.2.length, peopleLeft.length, st.1, peopleLeft)

/-- `get_people_at_same_address`.  In the source the two address cells are
read from the (merged) person record; the model keeps them in
`columns_data`, which holds the same cells. -/
def getPeopleAtSameAddress (people : People) (columnsData : ColumnsData) (pkey : String)
    (checkSameAddressColumns : List String) : List String × List String :=
  let col0 := checkSameAddressColumns.getD 0 ""
  let col1 := checkSameAddressColumns.getD 1 ""
  let primaryAddress1 := lookupD (lookupD columnsData pkey []) col0 ""
  let primaryZip := lookupD (lookupD columnsData pkey []) col1 ""
  let peopleToDelete := (people.map Prod.fst).filter (fun ck =>
    !(pkey == ck) &&
    (primaryAddress1 == lookupD (lookupD columnsData ck []) col0 "") &&
    (primaryZip == lookupD (lookupD columnsData ck []) col1 ""))
  (peopleToDelete,
    List.replicate (peopleToDelete.length - 1)
      ("Found someone with the same address as a selected person, so deleting him/her. Address: "
        ++ primaryAddress1 ++ " , " ++ primaryZip))

/-- `delete_person`: remove co-residents (when configured), remove the
chosen person, then empty every value whose `selected` count just reached
its upper quota. -/
def deletePerson (categories : Cats) (people : People) (columnsData : ColumnsData)
    (pkey : String) (checkSameAddress : Bool) (checkSameAddressColumns : List String) :
    Except PyErr (Cats × People × List String) := do
  let person := lookupD people pkey []
  let stLines ←
    if checkSameAddress then do
      let g := getPeopleAtSameAddress people columnsData pkey checkSameAddressColumns
      let st ← g.1.foldlM (fun (st : Cats × People) delKey =>
        reallyDeletePerson st.1 st.2 delKey false) (categories, people)
      pure (st, g.2)
    else
      pure ((categories, people), ([] : List String))
  let st ← reallyDeletePerson stLines.1.1 stLines.1.2 pkey true
  person.foldlM (fun (acc : Cats × People × List String) pc => do
    let item := lookupD (lookupD acc.1 pc.1 []) pc.2 default
    if item.selected = item.cmax then do
      let r ← deleteAllInCat acc.1 acc.2.1 pc.1 pc.2
      pure (r.2.2.1, r.2.2.2, acc.2.2 ++
        ["Category " ++ pc.2 ++ " full - deleting people... Deleted " ++ toString r.1
          ++ ", " ++ toString r.2.1 ++ " left."])
    else pure acc) (st.1, st.2, stLines.2)

/-- `find_max_ratio_cat`: scan every `(feature, value)`, fail on impossible
lower quotas, and keep the value with the highest pressure
`(min - selected) / remaining`, drawing a random member rank for each new
maximum.  Ratios are exact rationals here (floats in the source; every
ratio in the verified runs is exactly representable). -/
def findMaxRatioCat (categories : Cats) (r : RandState) :
    Except PyErr ((String × String × Int) × RandState) := do
  let st ← categories.foldlM (fun acc fc =>
    fc.2.foldlM (fun (acc : (ℚ × String × String × Int) × RandState) vc => do
      let item := vc.2
      if item.selected < item.cmin ∧ item.remaining < item.cmin - item.selected then
        throw (PyErr.selectionError
          ("FAIL in find_max_ratio_cat: No people (or not enough) in category " ++ vc.1))
      else if item.remaining ≠ 0 ∧ item.cmax ≠ 0 then
        let itemR : ℚ := ((item.cmin - item.selected : Int) : ℚ) / ((item.remaining : Int) : ℚ)
        if 1 < itemR then
          throw (PyErr.selectionError ("FAIL in find_max_ratio_cat: a ratio > 1..."))
        else if acc.1.1 < itemR then
          let rr := randint 1 item.remaining acc.2
          pure ((itemR, fc.1, vc.1, rr.1), rr.2)
        else pure acc
      else pure acc) acc) ((-100, "", "", -1), r)
  pure ((st.1.2.1, st.1.2.2.1, st.1.2.2.2), st.2)

/-- The person-selection scan of `find_random_sample_legacy`: walk the pool
in order, counting down the random rank on members holding the target
value; `none` when the rank is never reached (the Python loop then simply
selects nobody in this round). -/
def findNthMatch (f v : String) : People → Int → Option String
  | [], _ => none
  | p :: rest, n =>
    if personValue p.2 f == v then
      if n - 1 = 0 then some p.1 else findNthMatch f v rest (n - 1)
    else findNthMatch f v rest n

/-- The `for count in range(number_people_wanted)` loop of
`find_random_sample_legacy`; the fuel is the remaining number of rounds. -/
def legacyLoop (columnsData : ColumnsData) (checkSameAddress : Bool)
    (checkSameAddressColumns : List String) (numberPeopleWanted : Nat) :
    Nat → Nat → Cats → People → List String → List String → RandState →
    Except PyErr (List String × List String)
  | 0, _, _, _, peopleSelected, outputLines, _ => pure (peopleSelected, outputLines)
  | fuel + 1, count, categories, people, peopleSelected, outputLines, r => do
    let rr ← findMaxRatioCat categories r
    let st ←
      match findNthMatch rr.1.1 rr.1.2.1 people rr.1.2.2 with
      | none => pure (categories, people, peopleSelected, outputLines)
      | some pkey => do
          if peopleSelected.contains pkey then
            throw PyErr.assertionError
          else do
            let d ← deletePerson categories people columnsData pkey checkSameAddress
              checkSameAddressColumns
            pure (d.1, d.2.1, peopleSelected ++ [pkey], outputLines ++ d.2.2)
    if count < numberPeopleWanted - 1 ∧ st.2.1.length = 0 then
      throw (PyErr.selectionError ("Fail! We have run out of people..."))
    else
      legacyLoop columnsData checkSameAddress checkSameAddressColumns numberPeopleWanted
        fuel (count + 1) st.1 st.2.1 st.2.2.1 st.2.2.2 rr.2

/-- `find_random_sample_legacy`. -/
def findRandomSampleLegacy (categories : Cats) (people : People) (columnsData : ColumnsData)
    (numberPeopleWanted : Nat) (checkSameAddress : Bool)
    (checkSameAddressColumns : List String) (r : RandState) :
    Except PyErr (List (Finset String) × List String) := do
  let res ← legacyLoop columnsData checkSameAddress checkSameAddressColumns
    numberPeopleWanted numberPeopleWanted 0 categories people []
    ["Using legacy algorithm."] r
  pure ([res.1.toFinset], res.2)

/-- What one solve of the committee-generation ILP reports: an optimal 0/1
assignment, infeasibility, or some other non-optimal status code. -/
inductive SetupOutcome where
  | optimal (a : String → Bool)
  | infeasible
  | other (code : Nat)

/-- What the single solve inside `_relax_infeasible_quotas` reports: optimal
values of the integer slack variables, infeasibility, or another status. -/
inductive RelaxOutcome where
  | optimal (dminus dplus : String × String → Int)
  | infeasible
  | other (code : Nat)

/-- `feature_values`: the `(feature, value)` pairs in category order. -/
def featureValues (categories : Cats) : List (String × String) :=
  (categories.map (fun fc => fc.2.map (fun vc => (fc.1, vc.1)))).flatten

/-- One step of the suggested-quota loop at the end of
`_relax_infeasible_quotas`: compute `lower = min - d⁻` and
`upper = max + d⁺` for one `(feature, value)`, check the source
`assert` statements, and append the diff lines and the new quota pair. -/
def relaxSuggestStep (categories : Cats) (dminus dplus : String × String → Int)
    (acc : List ((String × String) × (Int × Int)) × List String) (fv : String × String) :
    Except PyErr (List ((String × String) × (Int × Int)) × List String) :=
  let item := lookupD (lookupD categories fv.1 []) fv.2 default
  let lower := item.cmin - dminus fv
  let upper := item.cmax + dplus fv
  if ¬ (lower ≤ item.cmin) then
    throw PyErr.assertionError
  else if ¬ (item.cmax ≤ upper) then
    throw PyErr.assertionError
  else if item.cmax < upper ∧ ¬ (lower = item.cmin) then
    throw PyErr.assertionError
  else
    let lines := if lower < item.cmin then
        acc.2 ++ ["Recommend lowering lower quota of " ++ fv.1 ++ ":" ++ fv.2
          ++ " to " ++ toString lower ++ "."]
      else acc.2
    let lines := if item.cmax < upper then
        lines ++ ["Recommend raising upper quota of " ++ fv.1 ++ ":" ++ fv.2
          ++ " to " ++ toString upper ++ "."]
      else lines
    pure (acc.1 ++ [(fv, (lower, upper))], lines)

/-- `_relax_infeasible_quotas`, with the solve summarised by a
`RelaxOutcome`.  On an optimal report the suggested quotas
`(min - d⁻, max + d⁺)` and the human-readable diffs are assembled exactly
as in the source, including its `assert` statements. -/
def relaxInfeasibleQuotas (categories : Cats) (_people : People)
    (_numberPeopleWanted : Nat) (_checkSameAddress : Bool) (_households : Households)
    (ro : RelaxOutcome) :
    Except PyErr (List ((String × String) × (Int × Int)) × List String) :=
  match ro with
  | RelaxOutcome.infeasible =>
      throw (PyErr.infeasibleQuotasCantRelax
        ("No feasible committees found, even with relaxing the quotas. Most likely, quotas would have to be relaxed beyond what the min_flex and max_flex columns allow."))
  | RelaxOutcome.other code =>
      throw (PyErr.selectionError
        ("No feasible committees found, solver returns code " ++ toString code
          ++ " (see the python-mip documentation). Either the pool is very bad or something is wrong with the solver."))
  | RelaxOutcome.optimal dminus dplus =>
      (featureValues categories).foldlM (relaxSuggestStep categories dminus dplus) ([], [])

/-- `_setup_committee_generation`, with the initial feasibility solve
summarised by a `SetupOutcome`: optimal hands back the agent variables,
infeasible triggers the quota relaxer and raises `InfeasibleQuotasError`
(whose `output` field prepends a header line), and any other status raises
`SelectionError`. -/
def setupCommitteeGeneration (categories : Cats) (people : People)
    (numberPeopleWanted : Nat) (checkSameAddress : Bool) (households : Households)
    (so : SetupOutcome) (ro : RelaxOutcome) : Except PyErr (String → Bool) :=
  match so with
  | SetupOutcome.optimal a => pure a
  | SetupOutcome.infeasible => do
      let r ← relaxInfeasibleQuotas categories people numberPeopleWanted checkSameAddress
        households ro
      throw (PyErr.infeasibleQuotas r.1 ("The quotas are infeasible:" :: r.2))
  | SetupOutcome.other code =>
      throw (PyErr.selectionError
        ("No feasible committees found, solver returns code " ++ toString code
          ++ " (see the python-mip documentation)."))

/-- The value of the committee-generation objective
`mip.xsum(weights[id] * agent_vars[id] for id in agent_vars)` at a 0/1
assignment. -/
def objValue (people : People) (w : String → ℚ) (a : String → Bool) : ℚ :=
  ((people.map Prod.fst).map (fun id => if a id then w id else 0)).sum

/-- An agent is coverable when some 0/1 assignment satisfying the
committee-generation model selects it (i.e. some feasible panel contains
it). -/
def Coverable (categories : Cats) (people : People) (k : Int) (csa : Bool)
    (households : Households) (id : String) : Prop :=
  ∃ a, ModelConstraints categories people k csa households a ∧ a id = true

/-- Correctness of the committee-generation solver oracle: for every
weight vector it reports a feasible assignment whose objective value is
maximal among all feasible assignments. -/
def SolverCorrect (categories : Cats) (people : People) (k : Int) (csa : Bool)
    (households : Households) (solve : (String → ℚ) → (String → Bool)) : Prop :=
  ∀ w, ModelConstraints categories people k csa households (solve w) ∧
    ∀ a, ModelConstraints categories people k csa households a →
      objValue people w a ≤ objValue people w (solve w)

/-- Result of `_generate_initial_committees`, together with the number of
multiplicative-weights rounds that were executed. -/
structure InitCommitteesResult where
  committees : List (Finset String)
  coveredAgents : Finset String
  lines : List String
  mwRounds : Nat
deriving DecidableEq

/-- The multiplicative-weights stage of `_generate_initial_committees`.
State: discovered committees, covered agents, current weights, executed
round count. -/
def mwPhase (solve : (String → ℚ) → (String → Bool)) (people : People) :
    Nat → (List (Finset String) × Finset String × (String → ℚ) × Nat) →
    (List (Finset String) × Finset String × (String → ℚ) × Nat)
  | 0, st => st
  | rounds + 1, st =>
    let newSet := ilpResultsToCommittee people (solve st.2.2.1)
    let weights := fun id => if id ∈ newSet then st.2.2.1 id * (8 / 10) else st.2.2.1 id
    let coefficientSum := ((people.map Prod.fst).map weights).sum
    let weights := fun id => weights id * ((people.length : ℚ) / coefficientSum)
    let st' :=
      if newSet ∈ st.1 then
        (st.1, st.2.1, fun id => (9 / 10) * weights id + 1 / 10, st.2.2.2 + 1)
      else
        (st.1 ++ [newSet], st.2.1 ∪ newSet, weights, st.2.2.2 + 1)
    mwPhase solve people rounds st'

/-- The per-agent coverage stage of `_generate_initial_committees`: for any
agent not yet covered, re-solve with the objective set to that agent's
variable alone; include the committee if it contains the agent, otherwise
report the agent as uncoverable. -/
def coverPhase (solve : (String → ℚ) → (String → Bool)) (people : People) :
    List String → (List (Finset String) × Finset String × List String) →
    (List (Finset String) × Finset String × List String)
  | [], st => st
  | id :: rest, st =>
    let st' :=
      if id ∈ st.2.1 then st
      else
        let newSet := ilpResultsToCommittee people (solve (fun j => if j == id then 1 else 0))
        if id ∈ newSet then
          ((if newSet ∈ st.1 then st.1 else st.1 ++ [newSet]), st.2.1 ∪ newSet, st.2.2)
        else
          (st.1, st.2.1, st.2.2 ++ ["Agent " ++ id ++ " not contained in any feasible committee."])
    coverPhase solve people rest st'

/-- `_generate_initial_committees`. -/
def generateInitialCommittees (solve : (String → ℚ) → (String → Bool)) (people : People)
    (multiplicativeWeightsRounds : Nat) : Except PyErr InitCommitteesResult :=
  let st := mwPhase solve people multiplicativeWeightsRounds ([], ∅, fun _ => 1, 0)
  let st2 := coverPhase solve people (people.map Prod.fst) (st.1, st.2.1, [])
  if st2.1.length < 1 then
    throw PyErr.assertionError
  else
    let lines := if st2.2.1.card = people.length then
        st2.2.2 ++ ["All agents are contained in some feasible committee."]
      else st2.2.2
    pure { committees := st2.1, coveredAgents := st2.2.1, lines := lines,
           mwRounds := st.2.2.2 }

/-- The round count `find_distribution_maximin` passes to
`_generate_initial_committees` (source line 1758): `len(people)`. -/
def maximinMWRounds (people : People) : Nat := people.length

/-- The round count `find_distribution_leximin` passes (source line 1601):
`3 * len(people)`. -/
def leximinMWRounds (people : People) : Nat := 3 * people.length

/-- The round count `find_distribution_nash` passes (source line 1909):
`2 * len(people)`. -/
def nashMWRounds (people : People) : Nat := 2 * people.length

/-- `_same_address`. -/
def sameAddress (columnsData1 columnsData2 : List (String × String))
    (cols : List String) : Bool :=
  cols.all (fun c => lookupD columnsData1 c "" == lookupD columnsData2 c "")

/-- The pairwise scan of `_compute_households`; the fuel is the number of
remaining positions (the list length never grows). -/
def computeHouseholdsAux (columnsData : ColumnsData) (cols : List String) :
    Nat → List (String × Option Nat) → Nat → List (String × Nat)
  | 0, _, _ => []
  | _ + 1, [], _ => []
  | fuel + 1, (id, oh) :: rest, counter =>
    match oh with
    | some h => (id, h) :: computeHouseholdsAux columnsData cols fuel rest counter
    | none =>
      let rest' := rest.map (fun p =>
        if p.2.isNone && sameAddress (lookupD columnsData id []) (lookupD columnsData p.1 [])
            cols then
          (p.1, some counter)
        else p)
      (id, counter) :: computeHouseholdsAux columnsData cols fuel rest' (counter + 1)

/-- `_compute_households`. -/
def computeHouseholds (people : People) (columnsData : ColumnsData)
    (cols : List String) : Households :=
  computeHouseholdsAux columnsData cols people.length (people.map (fun p => (p.1, none))) 0

/-- Python `int(x)`: truncation toward zero. -/
def pyTrunc (q : ℚ) : Int := if 0 ≤ q then ⌊q⌋ else -⌊-q⌋

/-- Python `round(x)`: round half to even. -/
def pyRound (q : ℚ) : Int :=
  if q - ⌊q⌋ < 1 / 2 then ⌊q⌋
  else if 1 / 2 < q - ⌊q⌋ then ⌊q⌋ + 1
  else if ⌊q⌋ % 2 = 0 then ⌊q⌋ else ⌊q⌋ + 1

/-- A marginal strictly affected by a pipage move (used only in the fuel
measure below). -/
def insideUnit (p : ℚ) : Bool := decide (EPS2 ≤ p) && decide (p ≤ 1 - EPS2)

/-- Fuel measure for `pipage_rounding`: each loop iteration either removes
a list entry or pins one strictly-interior marginal to exactly 0 or 1. -/
def pipageMeasure {α : Type} (marginals : List (α × ℚ)) : Nat :=
  marginals.length + (marginals.filter (fun m => insideUnit m.2)).length

/-- `pipage_rounding`, driven by an oracle stream `o` of `random.random()`
values and a cursor `t`; `none` only on fuel exhaustion, which is proved
unreachable for fuel above `pipageMeasure`. -/
def pipageRounding {α : Type} (o : Nat → ℚ) :
    Nat → List (α × ℚ) → Nat → Option (List α × Nat)
  | 0, _, _ => none
  | _ + 1, [], t => some ([], t)
  | _ + 1, [m], t => if o t < m.2 then some ([m.1], t + 1) else some ([], t + 1)
  | fuel + 1, m0 :: m1 :: rest, t =>
    if 1 - EPS2 < m0.2 then
      (pipageRounding o fuel (m1 :: rest) t).map (fun r => (m0.1 :: r.1, r.2))
    else if m0.2 < EPS2 then
      pipageRounding o fuel (m1 :: rest) t
    else if 1 - EPS2 < m1.2 then
      (pipageRounding o fuel (m0 :: rest) t).map (fun r => (m1.1 :: r.1, r.2))
    else if m1.2 < EPS2 then
      pipageRounding o fuel (m0 :: rest) t
    else
      let inc0dec1 := min (1 - m0.2) m1.2
      let dec0inc1 := min m0.2 (1 - m1.2)
      let choiceProbability := dec0inc1 / (inc0dec1 + dec0inc1)
      if o t < choiceProbability then
        pipageRounding o fuel ((m0.1, m0.2 + inc0dec1) :: (m1.1, m1.2 - inc0dec1) :: rest) (t + 1)
      else
        pipageRounding o fuel ((m0.1, m0.2 - dec0inc1) :: (m1.1, m1.2 + dec0inc1) :: rest) (t + 1)

/-- `scaled_prob = prob * number_selections` for every committee, in list
order (the loop body of `lottery_rounding`). -/
def scaledProbabilities (probabilities : List ℚ) (numberSelections : Nat) : List ℚ :=
  probabilities.map (fun p => p * (numberSelections : ℚ))

/-- `num_copies` in `lottery_rounding`: `int(scaled_prob)` per committee. -/
def numCopiesOf (probabilities : List ℚ) (numberSelections : Nat) : List Int :=
  (scaledProbabilities probabilities numberSelections).map (fun sp => pyTrunc sp)

/-- `residuals` in `lottery_rounding`:
`scaled_prob - int(scaled_prob)` per committee. -/
def residualsOf (probabilities : List ℚ) (numberSelections : Nat) : List ℚ :=
  (scaledProbabilities probabilities numberSelections).map
    (fun sp => sp - (pyTrunc sp : ℚ))

/-- `num_copies` after the `num_copies[committee_index] += 1` loop over the
pipage-rounded indices `picked`. -/
def finalCopiesOf (probabilities : List ℚ) (numberSelections : Nat) (m : Nat)
    (picked : List Nat) : List Int :=
  ((numCopiesOf probabilities numberSelections).zip (List.range m)).map
    (fun ci => ci.1 + (picked.count ci.2 : Int))

/-- `committee_lottery`: each committee replicated by its copy count. -/
def lotteryOutput {α : Type} (committees : List α) (finalCopies : List Int) : List α :=
  ((committees.zip finalCopies).map (fun cc => List.replicate cc.2.toNat cc.1)).flatten

/-- `lottery_rounding`: integer copies from the floors, pipage rounding on
the residuals, and the final replicated list.  Python `assert` failures
surface as `PyErr.assertionError`. -/
def lotteryRounding {α : Type} [DecidableEq α] (committees : List α)
    (probabilities : List ℚ) (numberSelections : Nat) (o : Nat → ℚ) :
    Except PyErr (List α) :=
  if ¬ (committees.length = probabilities.length) then throw PyErr.assertionError
  else if ¬ (1 ≤ numberSelections) then throw PyErr.assertionError
  else if ¬ (|(residualsOf probabilities numberSelections).sum -
      (pyRound (residualsOf probabilities numberSelections).sum : ℚ)| ≤ 1 / 10000) then
    throw PyErr.assertionError
  else if ¬ (∀ p ∈ residualsOf probabilities numberSelections, 0 ≤ p ∧ p ≤ 1) then
    throw PyErr.assertionError
  else
    match pipageRounding o
        (pipageMeasure ((List.range committees.length).zip
          (residualsOf probabilities numberSelections)) + 1)
        ((List.range committees.length).zip
          (residualsOf probabilities numberSelections)) 0 with
    | none => throw PyErr.assertionError
    | some r =>
      if ¬ (pyRound (residualsOf probabilities numberSelections).sum =
          (r.1.length : Int)) then
        throw PyErr.assertionError
      else
        pure (lotteryOutput committees
          (finalCopiesOf probabilities numberSelections committees.length r.1))

/-- `standardize_distribution`: drop the committees with probability below
`EPS2` and renormalise the rest. -/
def standardizeDistribution (committees : List (Finset String)) (probabilities : List ℚ) :
    List (Finset String) × List ℚ :=
  let kept := (committees.zip probabilities).filter (fun cp => decide (EPS2 ≤ cp.2))
  let probSum := (kept.map Prod.snd).sum
  (kept.map Prod.fst, kept.map (fun cp => cp.2 / probSum))

/-- A distribution-optimizer result: committees, probabilities, log lines. -/
abbrev DistResult := List (Finset String) × List ℚ × List String

/-- The oracles one attempt of `find_random_sample` may consume: the
feasibility- and relaxer-solve reports, the committee-generation solver
used by the initial-committee stage, the (abstracted) column-generation
bodies of the three distribution optimizers, the `random` stream of the
legacy sampler and the `random.random()` stream of pipage rounding. -/
structure AttemptOracles where
  setup : SetupOutcome
  relax : RelaxOutcome
  solve : (String → ℚ) → (String → Bool)
  maximinRest : InitCommitteesResult → Except PyErr DistResult
  leximinRest : InitCommitteesResult → Except PyErr DistResult
  nashRest : InitCommitteesResult → Except PyErr DistResult
  rand : RandState
  pipage : Nat → ℚ

/-- `find_distribution_maximin` up to and including the initial-committee
stage; the column-generation loop and the final primal solve are the
`maximinRest` oracle (their internals are irrelevant to the claims
settled here, which quantify over every behaviour of that part). -/
def findDistributionMaximin (categories : Cats) (people : People)
    (columnsData : ColumnsData) (numberPeopleWanted : Nat) (checkSameAddress : Bool)
    (checkSameAddressColumns : List String) (oc : AttemptOracles) :
    Except PyErr DistResult := do
  let households := if checkSameAddress then
      computeHouseholds people columnsData checkSameAddressColumns
    else []
  let _agentVars ← setupCommitteeGeneration categories people numberPeopleWanted
    checkSameAddress households oc.setup oc.relax
  let init ← generateInitialCommittees oc.solve people (maximinMWRounds people)
  let rest ← oc.maximinRest init
  pure (rest.1, rest.2.1, ["Using maximin algorithm."] ++ init.lines ++ rest.2.2)

/-- `find_distribution_leximin`, same shape as the maximin embedding but
with the leximin round count. -/
def findDistributionLeximin (categories : Cats) (people : People)
    (columnsData : ColumnsData) (numberPeopleWanted : Nat) (checkSameAddress : Bool)
    (checkSameAddressColumns : List String) (oc : AttemptOracles) :
    Except PyErr DistResult := do
  let households := if checkSameAddress then
      computeHouseholds people columnsData checkSameAddressColumns
    else []
  let _agentVars ← setupCommitteeGeneration categories people numberPeopleWanted
    checkSameAddress households oc.setup oc.relax
  let init ← generateInitialCommittees oc.solve people (leximinMWRounds people)
  let rest ← oc.leximinRest init
  pure (rest.1, rest.2.1, ["Using leximin algorithm."] ++ init.lines ++ rest.2.2)

/-- `find_distribution_nash`, same shape with the Nash round count. -/
def findDistributionNash (categories : Cats) (people : People)
    (columnsData : ColumnsData) (numberPeopleWanted : Nat) (checkSameAddress : Bool)
    (checkSameAddressColumns : List String) (oc : AttemptOracles) :
    Except PyErr DistResult := do
  let households := if checkSameAddress then
      computeHouseholds people columnsData checkSameAddressColumns
    else []
  let _agentVars ← setupCommitteeGeneration categories people numberPeopleWanted
    checkSameAddress households oc.setup oc.relax
  let init ← generateInitialCommittees oc.solve people (nashMWRounds people)
  let rest ← oc.nashRest init
  pure (rest.1, rest.2.1, ["Using Nash algorithm."] ++ init.lines ++ rest.2.2)

/-- `_find_any_committee`. -/
def findAnyCommittee (categories : Cats) (people : People) (columnsData : ColumnsData)
    (numberPeopleWanted : Nat) (checkSameAddress : Bool)
    (checkSameAddressColumns : List String) (oc : AttemptOracles) :
    Except PyErr (List (Finset String) × List String) := do
  let households := if checkSameAddress then
      computeHouseholds people columnsData checkSameAddressColumns
    else []
  let a ← setupCommitteeGeneration categories people numberPeopleWanted checkSameAddress
    households oc.setup oc.relax
  pure ([ilpResultsToCommittee people a], [])

/-- The first `(feature, value)` violating
`min_flex <= min <= max <= max_flex`, if any (the validation loop at the
top of `find_random_sample`). -/
def quotaInconsistency (categories : Cats) : Option (String × String) :=
  categories.findSome? (fun fc => fc.2.findSome? (fun vc =>
    if vc.2.cminFlex ≤ vc.2.cmin ∧ vc.2.cmin ≤ vc.2.cmax ∧ vc.2.cmax ≤ vc.2.cmaxFlex then none
    else some (fc.1, vc.1)))

/-- `find_random_sample`: input validation, the `test_selection` shortcut,
the Gurobi fallback from leximin to maximin, and dispatch to the legacy
sampler or to a distribution optimizer followed by standardisation, the
no-duplicates assertion and lottery rounding.  The distribution-statistics
table is abbreviated to a single placeholder line. -/
def findRandomSample (categories : Cats) (people : People) (columnsData : ColumnsData)
    (numberPeopleWanted : Nat) (checkSameAddress : Bool)
    (checkSameAddressColumns : List String) (selectionAlgorithm : String)
    (testSelection : Bool) (numberSelections : Nat) (gurobiAvailable : Bool)
    (oc : AttemptOracles) : Except PyErr (List (Finset String) × List String) :=
  match quotaInconsistency categories with
  | some fv =>
      throw (PyErr.valueError ("For feature (" ++ fv.1 ++ ": " ++ fv.2
        ++ "), the different quotas have incompatible values. It must hold that min_flex <= min <= max <= max_flex."))
  | none =>
    if checkSameAddress ∧ checkSameAddressColumns.length = 0 then
      throw (PyErr.valueError
        ("Since the algorithm is configured to prevent multiple house members to appear on the same panel (check_same_address = true), check_same_address_columns must not be empty."))
    else if testSelection then
      if ¬ (numberSelections = 1) then
        throw (PyErr.valueError
          ("Running the test selection does not support generating a transparent lottery, so, if test_selection is true, number_selections must be 1."))
      else
        findAnyCommittee categories people columnsData numberPeopleWanted checkSameAddress
          checkSameAddressColumns oc
    else
      let fallback := selectionAlgorithm = "leximin" ∧ gurobiAvailable = false
      let preLines : List String :=
        if fallback then
          ["The leximin algorithm requires the optimization library Gurobi to be installed. Switching to the simpler maximin algorithm, which can be run using open source solvers."]
        else []
      let algo := if fallback then "maximin" else selectionAlgorithm
      if algo = "legacy" then
        if ¬ (numberSelections = 1) then
          throw (PyErr.valueError
            ("Currently, the legacy algorithm does not support generating a transparent lottery, so number_selections must be set to 1."))
        else
          findRandomSampleLegacy categories people columnsData numberPeopleWanted
            checkSameAddress checkSameAddressColumns oc.rand
      else do
        let dist ←
          if algo = "leximin" then
            findDistributionLeximin categories people columnsData numberPeopleWanted
              checkSameAddress checkSameAddressColumns oc
          else if algo = "maximin" then
            findDistributionMaximin categories people columnsData numberPeopleWanted
              checkSameAddress checkSameAddressColumns oc
          else if algo = "nash" then
            findDistributionNash categories people columnsData numberPeopleWanted
              checkSameAddress checkSameAddressColumns oc
          else
            throw (PyErr.valueError ("Unknown selection algorithm " ++ algo
              ++ ", must be either legacy, leximin, maximin, or nash."))
        let std := standardizeDistribution dist.1 dist.2.1
        if ¬ std.1.Nodup then throw PyErr.assertionError
        else do
          let lottery ← lotteryRounding std.1 std.2 numberSelections oc.pipage
          pure (lottery, preLines ++ dist.2.2 ++ ["<distribution statistics table>"])

/-- `print_category_info`; the HTML table body is abbreviated to a
placeholder (its content feeds no decision in the driver). -/
def printCategoryInfo (_categories : Cats) (_people : People)
    (peopleSelected : List (Finset String)) (_numberPeopleWanted : Nat) : List String :=
  if 1 < peopleSelected.length then
    ["<p>We do not calculate target details for multiple selections - please see your output files.</p>"]
  else
    ["<category info table>"]

/-- `check_category_selected`: recount the selected panel against every
quota; report the last failing value. -/
def checkCategorySelected (categories : Cats) (people : People)
    (peopleSelected : List (Finset String)) (numberSelections : Nat) :
    Bool × List String :=
  if 1 < numberSelections then
    (true, ["<p>No target checks done for multiple selections - please see your output files.</p>"])
  else
    let counts : String → String → Int := fun f v =>
      match peopleSelected with
      | [c] => committeeCount people c f v
      | _ => 0
    let lastCatFail := (featureValues categories).foldl (fun acc fv =>
      let item := lookupD (lookupD categories fv.1 []) fv.2 default
      if counts fv.1 fv.2 < item.cmin ∨ item.cmax < counts fv.1 fv.2 then some fv.2 else acc)
      (none : Option String)
    match lastCatFail with
    | none => (true, [""])
    | some cat =>
      (false, ["<p>Failed to get minimum or got more than maximum in (at least) category: "
        ++ cat ++ "</p>"])

/-- The settings record consumed by `run_stratification`. -/
structure StratSettings where
  checkSameAddress : Bool
  checkSameAddressColumns : List String
  maxAttempts : Nat
  selectionAlgorithm : String
  randomNumberSeed : Int

/-- The retry loop of `run_stratification`.  Each iteration deep-copies the
inputs in the source; the embedding is pure, so every attempt literally
receives the original `categories` and `people` values.  `SelectionError`
is caught and retried, the three other typed errors break out of the loop,
and an `AssertionError` (uncaught in the source) propagates. -/
def runStratLoop (categories : Cats) (people : People) (columnsData : ColumnsData)
    (numberPeopleWanted : Nat) (settings : StratSettings) (testSelection : Bool)
    (numberSelections : Nat) (gurobiAvailable : Bool) (oracles : Nat → AttemptOracles) :
    Nat → Nat → List (Finset String) → List String →
    Except PyErr (Bool × List (Finset String) × List String)
  | tries, 0, lastSelected, lines =>
    pure (false, lastSelected, lines ++ ["Failed " ++ toString tries ++ " times... gave up."])
  | tries, fuel + 1, _lastSelected, lines =>
    let lines := lines ++
      (if tries = 0 then printCategoryInfo categories people [] numberPeopleWanted else [])
    let lines := lines ++ ["<b>Trial number: " ++ toString tries ++ "</b>"]
    match findRandomSample categories people columnsData numberPeopleWanted
        settings.checkSameAddress settings.checkSameAddressColumns
        settings.selectionAlgorithm testSelection numberSelections gurobiAvailable
        (oracles tries) with
    | Except.ok res =>
      let lines := lines ++ res.2
      let catInfo := printCategoryInfo categories people res.1 numberPeopleWanted
      let check := checkCategorySelected categories people res.1 numberSelections
      if check.1 then
        pure (true, res.1, lines ++ ["<b>SUCCESS!!</b> Final:"] ++ catInfo ++ check.2)
      else
        runStratLoop categories people columnsData numberPeopleWanted settings testSelection
          numberSelections gurobiAvailable oracles (tries + 1) fuel res.1 lines
    | Except.error (PyErr.selectionError m) =>
      runStratLoop categories people columnsData numberPeopleWanted settings testSelection
        numberSelections gurobiAvailable oracles (tries + 1) fuel []
        (lines ++ ["Failed: Selection Error thrown: " ++ m])
    | Except.error (PyErr.valueError m) =>
      pure (false, [], lines ++ [m] ++ ["Failed " ++ toString tries ++ " times... gave up."])
    | Except.error (PyErr.infeasibleQuotas _q output) =>
      pure (false, [], lines ++ output ++ ["Failed " ++ toString tries ++ " times... gave up."])
    | Except.error (PyErr.infeasibleQuotasCantRelax m) =>
      pure (false, [], lines ++ [m] ++ ["Failed " ++ toString tries ++ " times... gave up."])
    | Except.error PyErr.assertionError =>
      throw PyErr.assertionError

/-- The per-category panel-size bounds (`min_max_people`). -/
abbrev MinMaxPeople := List (String × Int × Int)

/-- `run_stratification`: the legacy-only size precheck, the initial log
lines, and the retry loop.  (The source returns a 4-tuple on the precheck
branch and a 3-tuple otherwise; the model uses the 3-tuple shape for
both.)  The red-styled warning string is reproduced without its HTML
style attribute. -/
def runStratification (categories : Cats) (people : People) (columnsData : ColumnsData)
    (numberPeopleWanted : Nat) (minMaxPeople : MinMaxPeople) (settings : StratSettings)
    (testSelection : Bool) (numberSelections : Nat) (gurobiAvailable : Bool)
    (oracles : Nat → AttemptOracles) :
    Except PyErr (Bool × List (Finset String) × List String) :=
  match minMaxPeople.find? (fun mv =>
      (settings.selectionAlgorithm == "legacy") &&
      (decide ((numberPeopleWanted : Int) < mv.2.1) ||
        decide (mv.2.2 < (numberPeopleWanted : Int)))) with
  | some mv =>
    pure (false, [], ["The number of people to select (" ++ toString numberPeopleWanted
      ++ ") is out of the range of the numbers of people in one of the " ++ mv.1
      ++ " categories."])
  | none =>
    let lines : List String :=
      (if testSelection then
        ["<b>WARNING: Panel is not selected at random! Only use for testing!</b><br>"]
      else []) ++ ["<b>Initial: (selected = 0)</b>"]
    runStratLoop categories people columnsData numberPeopleWanted settings testSelection
      numberSelections gurobiAvailable oracles 0 settings.maxAttempts [] lines

/-- One already-parsed row of the categories table. -/
structure CatRow where
  category : String
  name : String
  rmin : Int
  rmax : Int
  rminFlex : Int
  rmaxFlex : Int
deriving DecidableEq

/-- `dict.update` on the nested categories structure. -/
def addCatRow (cats : Cats) (cat catValue : String) (item : CatItem) : Cats :=
  if (cats.lookup cat).isSome then
    updateAssoc cats cat (fun vals =>
      if (vals.lookup catValue).isSome then updateAssoc vals catValue (fun _ => item)
      else vals ++ [(catValue, item)])
  else cats ++ [(cat, [(catValue, item)])]

/-- The quota-reading logic of `PeopleAndCats._read_in_cats`, on
already-parsed rows (`cat_flex` tells whether the flex columns are present
in the header; the CSV parsing, cell trimming and blank-cell errors are
outside the modelled fragment).  When the flex columns are absent every
row gets `min_flex = 0` and the placeholder `max_flex = -1`, later
replaced by `max(max_values)` — the largest per-feature sum of `max`
quotas.  `readCatRow` is the per-row body of the reading loop. -/
def readCatRow (catFlex : Bool) (st : Cats × List (String × Int × Int)) (row : CatRow) :
    Except String (Cats × List (String × Int × Int)) :=
  if row.category = "" then pure st
  else
    let catMinFlex := if catFlex then row.rminFlex else 0
    let catMaxFlex := if catFlex then row.rmaxFlex else -1
    if catFlex ∧ (row.rmin < row.rminFlex ∨ row.rmaxFlex < row.rmax) then
      throw ("Inconsistent numbers in min_flex and max_flex in the categories input for "
        ++ row.name ++ ": the flex values must be equal or outside the max and min values.")
    else
      let item : CatItem := ⟨row.rmin, row.rmax, catMinFlex, catMaxFlex, 0, 0⟩
      let minMax :=
        if (st.1.lookup row.category).isSome then
          updateAssoc st.2 row.category (fun mm => (mm.1 + row.rmin, mm.2 + row.rmax))
        else st.2 ++ [(row.category, (row.rmin, row.rmax))]
      pure (addCatRow st.1 row.category row.name item, minMax)

def readInCatsCore (catFlex : Bool) (rows : List CatRow) :
    Except String (Cats × List (String × Int × Int)) := do
  let st ← rows.foldlM (readCatRow catFlex) ([], [])
  let maxValues := st.2.map (fun mm => mm.2.2)
  let minValues := st.2.map (fun mm => mm.2.1)
  match maxValues.min?, maxValues.max?, minValues.max? with
  | some maxVal, some maxFlexVal, some minVal =>
    if maxVal < minVal then
      throw ("Inconsistent numbers in min and max in the categories input: the sum of the minimum values of a category is larger than the sum of the maximum values of a(nother) category.")
    else
      pure (st.1.map (fun fc => (fc.1, fc.2.map (fun vc =>
        (vc.1, if vc.2.cmaxFlex = -1 then { vc.2 with cmaxFlex := maxFlexVal } else vc.2)))),
        st.2)
  | _, _, _ => throw ("Error loading categories: empty categories input.")

/-! Concrete instances used by the counterexamples and witnesses. -/

/-- Three binary features; value `a2` forces agent `pA`, and after the
greedy sampler takes `pA` (feature `A` has the highest pressure) and then
`pB` (for `b2`), nobody is left to cover the lower quota of `c2`. -/
def catsCx : Cats :=
  [("A", [("a1", ⟨0, 2, 0, 2, 0, 2⟩), ("a2", ⟨1, 1, 0, 1, 0, 1⟩)]),
   ("B", [("b1", ⟨0, 2, 0, 2, 0, 2⟩), ("b2", ⟨1, 2, 0, 2, 0, 1⟩)]),
   ("C", [("c1", ⟨0, 2, 0, 2, 0, 2⟩), ("c2", ⟨1, 2, 0, 2, 0, 1⟩)])]

/-- The pool matching `catsCx` (the `remaining` counters above are the
value counts of this pool, as `_init_categories_people` sets them). -/
def peopleCx : People :=
  [("pA", [("A", "a2"), ("B", "b1"), ("C", "c1")]),
   ("pB", [("A", "a1"), ("B", "b2"), ("C", "c1")]),
   ("pC", [("A", "a1"), ("B", "b1"), ("C", "c2")])]

/-- A committee-generation solver oracle that is never consulted in the
runs that use it. -/
def dummySolve : (String → ℚ) → (String → Bool) := fun _ _ => false

/-- A column-generation-body oracle that is never consulted in the runs
that use it. -/
def dummyRest : InitCommitteesResult → Except PyErr DistResult :=
  fun _ => throw PyErr.assertionError

/-- Oracles for the concrete legacy run (only the `random` stream can
matter there, and the run consults it only through `randint(1, 1)`). -/
def oraclesCx : AttemptOracles :=
  { setup := SetupOutcome.infeasible, relax := RelaxOutcome.infeasible, solve := dummySolve,
    maximinRest := dummyRest, leximinRest := dummyRest, nashRest := dummyRest,
    rand := ⟨fun _ => 0, 0⟩, pipage := fun _ => 0 }

/-- Oracles whose feasibility solve reports a non-optimal, non-infeasible
status (solver failure), for the retry counterexample. -/
def oraclesSolverFailure : AttemptOracles :=
  { setup := SetupOutcome.other 5, relax := RelaxOutcome.infeasible, solve := dummySolve,
    maximinRest := dummyRest, leximinRest := dummyRest, nashRest := dummyRest,
    rand := ⟨fun _ => 0, 0⟩, pipage := fun _ => 0 }

/-- A one-feature instance with a single feasible panel `{p1}`:
`v1` has quotas `[1, 1]` and `v2` has quotas `[0, 0]`, with `k = 1`. -/
def catsW : Cats :=
  [("f", [("v1", ⟨1, 1, 0, 1, 0, 1⟩), ("v2", ⟨0, 0, 0, 0, 0, 1⟩)])]

/-- The two-agent pool of `catsW`; `p2` is uncoverable. -/
def peopleW : People :=
  [("p1", [("f", "v1")]), ("p2", [("f", "v2")])]

/-- The (unique-solution) exact solver for the `catsW`/`peopleW` model. -/
def solveW : (String → ℚ) → (String → Bool) := fun _ id => id == "p1"

/-- An infeasible instance for the relaxer: `v1` needs two agents but only
one exists in the pool it is used with; lowering its quota to 1 restores
feasibility within the flex bounds. -/
def catsRelax : Cats :=
  [("f", [("v1", ⟨2, 2, 0, 2, 0, 1⟩), ("v2", ⟨0, 1, 0, 2, 0, 1⟩)])]

/-- Optimal lower-slack values for `catsRelax`: reduce the lower quota of
`v1` by one. -/
def dmW : String × String → Int := fun fv => if fv = ("f", "v1") then 1 else 0

/-- Optimal upper-slack values for `catsRelax`: raise nothing. -/
def dpW : String × String → Int := fun _ => 0

end Strat

namespace Strat

/-! ### Association-list and counting lemmas -/

/-- On an association list with distinct keys, `lookup` finds exactly the
stored pair. -/
theorem lookup_of_nodup {α : Type} :
    ∀ (l : List (String × α)) (k : String) (v : α),
      (l.map Prod.fst).Nodup → (k, v) ∈ l → l.lookup k = some v := by
  intro l
  induction l with
  | nil => intro k v _ hm; exact absurd hm (List.not_mem_nil _)
  | cons p l ih =>
    intro k v hn hm
    rcases List.mem_cons.mp hm with h | h
    · rw [← h]
      simp [List.lookup]
    · have hk : k ∈ l.map Prod.fst := List.mem_map.mpr ⟨(k, v), h, rfl⟩
      have hne : ¬ (k == p.1) = true := by
        intro hb
        have : k = p.1 := by simpa using hb
        subst this
        exact (List.nodup_cons.mp (by simpa using hn)).1 hk
      simp only [List.lookup, hne]
      exact ih k v (List.nodup_cons.mp (by simpa using hn)).2 h

/-- The panel-size constraint counts exactly the selected ids. -/
theorem sumSelected_eq_length (people : People) (a : String → Bool) :
    sumSelected people a = (((people.map Prod.fst).filter a).length : Int) := by
  induction people with
  | nil => rfl
  | cons p ps ih =>
    simp only [sumSelected, indicator, List.map_cons, List.sum_cons, List.filter_cons]
      at ih ⊢
    by_cases h : a p.1 = true
    · rw [if_pos h, if_pos h]
      simp only [List.length_cons]
      push_cast
      omega
    · rw [if_neg h, if_neg h]
      omega

/-- Committee cardinality equals the panel-size constraint value. -/
theorem ilpResultsToCommittee_card (people : People) (a : String → Bool)
    (hn : (people.map Prod.fst).Nodup) :
    ((ilpResultsToCommittee people a).card : Int) = sumSelected people a := by
  unfold ilpResultsToCommittee
  rw [List.toFinset_card_of_nodup (hn.filter _), sumSelected_eq_length]

/-- Membership in the extracted committee. -/
theorem mem_ilpResultsToCommittee {people : People} {a : String → Bool} {x : String} :
    x ∈ ilpResultsToCommittee people a ↔ x ∈ people.map Prod.fst ∧ a x = true := by
  simp [ilpResultsToCommittee, List.mem_filter]

/-- Counting committee members with a value, against the ILP count, on any
pool segment whose membership in `P` coincides with the assignment. -/
theorem committeeCount_aux (f v : String) (a : String → Bool) (P : Finset String) :
    ∀ l : People, (∀ p ∈ l, (p.1 ∈ P ↔ a p.1 = true)) →
      ((l.filter (fun p => decide (p.1 ∈ P) && (personValue p.2 f == v))).length : Int) =
        countFV l f v a := by
  intro l
  induction l with
  | nil => intro _; rfl
  | cons q l ih =>
    intro hiff
    have hq := hiff q (List.mem_cons_self q l)
    have ihh := ih (fun p hp => hiff p (List.mem_cons_of_mem q hp))
    simp only [countFV, indicator] at ihh ⊢
    rw [List.filter_cons, List.filter_cons]
    by_cases hv : (personValue q.2 f == v) = true
    · by_cases ha : a q.1 = true
      · have hmem : decide (q.1 ∈ P) = true := decide_eq_true (hq.mpr ha)
        rw [if_pos (by rw [hmem, hv]; rfl), if_pos hv]
        simp only [List.length_cons, List.map_cons, List.sum_cons, if_pos ha]
        push_cast
        omega
      · have hmem : decide (q.1 ∈ P) = false := by
          simp only [decide_eq_false_iff_not]
          exact fun hc => ha (hq.mp hc)
        rw [if_neg (by rw [hmem]; simp), if_pos hv]
        simp only [List.map_cons, List.sum_cons, if_neg ha]
        omega
    · rw [if_neg (by simp only [Bool.and_eq_true]; exact fun hc => hv hc.2), if_neg hv]
      exact ihh

/-- Committee value counts agree with the ILP quota-constraint counts. -/
theorem committeeCount_eq_countFV (people : People) (a : String → Bool) (f v : String) :
    committeeCount people (ilpResultsToCommittee people a) f v = countFV people f v a := by
  unfold committeeCount
  refine committeeCount_aux f v a _ people ?_
  intro p hp
  rw [mem_ilpResultsToCommittee]
  constructor
  · exact fun h => h.2
  · exact fun h => ⟨List.mem_map.mpr ⟨p, hp, rfl⟩, h⟩

/-- A list containing two distinct selected elements has length at least 2
and indicator sum at least 2. -/
theorem two_selected_members (members : List String) (a : String → Bool) (i j : String)
    (hi : i ∈ members) (hj : j ∈ members) (hne : i ≠ j)
    (hai : a i = true) (haj : a j = true) :
    2 ≤ members.length ∧ 2 ≤ (members.map (indicator a)).sum := by
  have hj' : j ∈ members.erase i := (List.mem_erase_of_ne hne.symm).mpr hj
  have hperm1 : List.Perm members (i :: members.erase i) := List.perm_cons_erase hi
  have hperm2 : List.Perm (members.erase i) (j :: (members.erase i).erase j) :=
    List.perm_cons_erase hj'
  have hsum1 : (members.map (indicator a)).sum =
      indicator a i + ((members.erase i).map (indicator a)).sum := by
    rw [(hperm1.map (indicator a)).sum_eq]
    simp
  have hsum2 : ((members.erase i).map (indicator a)).sum =
      indicator a j + (((members.erase i).erase j).map (indicator a)).sum := by
    rw [(hperm2.map (indicator a)).sum_eq]
    simp
  have hrest : 0 ≤ (((members.erase i).erase j).map (indicator a)).sum := by
    refine List.sum_nonneg ?_
    intro x hx
    rcases List.mem_map.mp hx with ⟨y, _, rfl⟩
    unfold indicator
    split <;> omega
  have hlen1 := hperm1.length_eq
  have hlen2 := hperm2.length_eq
  simp only [List.length_cons] at hlen1 hlen2
  have hii : indicator a i = 1 := by unfold indicator; rw [if_pos hai]
  have hij : indicator a j = 1 := by unfold indicator; rw [if_pos haj]
  constructor
  · omega
  · omega

/-- The per-household ILP constraints force household exclusivity of the
extracted panel. -/
theorem household_exclusive_of_constraints (households : Households) (a : String → Bool)
    (P : Finset String) (hmem : ∀ x ∈ P, a x = true)
    (hcon : ∀ h ∈ households.map Prod.snd, 2 ≤ (householdMembers households h).length →
      ((householdMembers households h).map (indicator a)).sum ≤ 1) :
    HouseholdExclusive households P := by
  intro p hp q hq hpP hqP hne heq
  have hpm : p.1 ∈ householdMembers households p.2 := by
    refine List.mem_map.mpr ⟨p, List.mem_filter.mpr ⟨hp, ?_⟩, rfl⟩
    simp
  have hqm : q.1 ∈ householdMembers households p.2 := by
    refine List.mem_map.mpr ⟨q, List.mem_filter.mpr ⟨hq, ?_⟩, rfl⟩
    simp [heq]
  obtain ⟨hlen, hsum⟩ := two_selected_members (householdMembers households p.2) a p.1 q.1
    hpm hqm hne (hmem p.1 hpP) (hmem q.1 hqP)
  have hle := hcon p.2 (List.mem_map.mpr ⟨p, hp, rfl⟩) hlen
  omega

/-- Claim C1 (amended, ILP part): every panel extracted from a 0/1
assignment satisfying the committee-generation model — which is where all
panels of the maximin, leximin, nash and test-selection paths come from —
has exactly `k` members, meets every `(feature, value)` quota, and, when
`check_same_address` is enabled, contains at most one member per
household.  (The legacy path gives no such guarantee; see the
counterexample.) -/
theorem C1_ilp_panels_feasible (categories : Cats) (people : People) (k : Int)
    (checkSameAddress : Bool) (households : Households) (a : String → Bool)
    (hn : (people.map Prod.fst).Nodup)
    (hcon : ModelConstraints categories people k checkSameAddress households a) :
    ((ilpResultsToCommittee people a).card : Int) = k ∧
    CommitteeSatisfiesQuotas categories people (ilpResultsToCommittee people a) ∧
    (checkSameAddress = true →
      HouseholdExclusive households (ilpResultsToCommittee people a)) := by
  obtain ⟨h1, h2, h3⟩ := hcon
  refine ⟨?_, ?_, ?_⟩
  · rw [ilpResultsToCommittee_card people a hn, h1]
  · intro fc hfc vc hvc
    rw [committeeCount_eq_countFV people a]
    exact h2 fc hfc vc hvc
  · intro hcsa
    exact household_exclusive_of_constraints households a _
      (fun x hx => (mem_ilpResultsToCommittee.mp hx).2) (h3 hcsa)

/-- Witness for C1 on the concrete `catsW`/`peopleW` instance with one
two-member household. -/
theorem C1_ilp_panels_feasible_witness :
    ((peopleW.map Prod.fst).Nodup ∧
      ModelConstraints catsW peopleW 1 true [("p1", 0), ("p2", 0)] (fun id => id == "p1")) ∧
    (((ilpResultsToCommittee peopleW (fun id => id == "p1")).card : Int) = 1 ∧
      CommitteeSatisfiesQuotas catsW peopleW
        (ilpResultsToCommittee peopleW (fun id => id == "p1")) ∧
      (true = true →
        HouseholdExclusive [("p1", 0), ("p2", 0)]
          (ilpResultsToCommittee peopleW (fun id => id == "p1")))) :=
  ⟨⟨by decide, by decide⟩,
    C1_ilp_panels_feasible catsW peopleW 1 true [("p1", 0), ("p2", 0)]
      (fun id => id == "p1") (by decide) (by decide)⟩

/-- Claim C1 counterexample: under the legacy selection algorithm the core
returns the panel `{pA, pB}` on `catsCx`/`peopleCx` (for every random
stream — the run only draws `randint(1, 1)`), and that panel violates the
lower quota of value `c2`, so the claim "every returned panel meets every
quota under any selection algorithm" is false on the code. -/
theorem C1_legacy_counterexample :
    (findRandomSample catsCx peopleCx [] 2 false [] "legacy" false 1 true
        oraclesCx).toOption.map Prod.fst = some [({"pA", "pB"} : Finset String)] ∧
    ¬ CommitteeSatisfiesQuotas catsCx peopleCx ({"pA", "pB"} : Finset String) :=
  ⟨of_decide_eq_true (by with_unfolding_all rfl),
   of_decide_eq_true (by with_unfolding_all rfl)⟩

/-! ### C4 / C8: error semantics of the feasibility setup and the relaxer -/

/-- If the suggested-quota loop returns, its quota list is exactly the
pointwise suggestion `(min - d⁻, max + d⁺)` over the processed feature
values, appended to the accumulator. -/
theorem relaxSuggest_fold_ok (categories : Cats) (dminus dplus : String × String → Int) :
    ∀ (fvs : List (String × String))
      (acc out : List ((String × String) × (Int × Int)) × List String),
      fvs.foldlM (relaxSuggestStep categories dminus dplus) acc = Except.ok out →
      out.1 = acc.1 ++ fvs.map (fun fv =>
        (fv, ((lookupD (lookupD categories fv.1 []) fv.2 default).cmin - dminus fv,
              (lookupD (lookupD categories fv.1 []) fv.2 default).cmax + dplus fv))) := by
  intro fvs
  induction fvs with
  | nil =>
    intro acc out h
    simp only [List.foldlM_nil] at h
    cases h
    simp
  | cons fv fvs ih =>
    intro acc out h
    rw [List.foldlM_cons] at h
    cases hstep : relaxSuggestStep categories dminus dplus acc fv with
    | error e =>
      rw [hstep] at h
      simp only [bind, Except.bind] at h
      simp at h
    | ok acc' =>
      rw [hstep] at h
      simp only [bind, Except.bind] at h
      have hout := ih acc' out h
      have hacc' : acc'.1 = acc.1 ++
          [(fv, ((lookupD (lookupD categories fv.1 []) fv.2 default).cmin - dminus fv,
                 (lookupD (lookupD categories fv.1 []) fv.2 default).cmax + dplus fv))] := by
        unfold relaxSuggestStep at hstep
        dsimp only at hstep
        split_ifs at hstep <;> cases hstep <;> rfl
      rw [hout, hacc']
      simp

/-- Claim C4: `_setup_committee_generation` error routing — an infeasible
report invokes the relaxer and raises `InfeasibleQuotasError` carrying the
suggested quotas; if the relaxer model is itself infeasible,
`InfeasibleQuotasCantRelaxError` is raised; any other non-optimal status
(of either solve) raises the fatal `SelectionError`. -/
theorem C4_setup_error_semantics (categories : Cats) (people : People) (k : Nat)
    (csa : Bool) (households : Households) (ro : RelaxOutcome) (code : Nat)
    (dminus dplus : String × String → Int) :
    (∀ q lines,
      relaxInfeasibleQuotas categories people k csa households
          (RelaxOutcome.optimal dminus dplus) = Except.ok (q, lines) →
      setupCommitteeGeneration categories people k csa households SetupOutcome.infeasible
          (RelaxOutcome.optimal dminus dplus) =
        Except.error (PyErr.infeasibleQuotas q ("The quotas are infeasible:" :: lines))) ∧
    (∃ m, setupCommitteeGeneration categories people k csa households
        SetupOutcome.infeasible RelaxOutcome.infeasible =
      Except.error (PyErr.infeasibleQuotasCantRelax m)) ∧
    (∃ m, setupCommitteeGeneration categories people k csa households
        SetupOutcome.infeasible (RelaxOutcome.other code) =
      Except.error (PyErr.selectionError m)) ∧
    (∃ m, setupCommitteeGeneration categories people k csa households
        (SetupOutcome.other code) ro = Except.error (PyErr.selectionError m)) := by
  refine ⟨?_, ⟨_, rfl⟩, ⟨_, rfl⟩, ⟨_, rfl⟩⟩
  intro q lines h
  simp only [setupCommitteeGeneration, h, Except.bind]
  rfl

/-- Witness for C4 at the concrete relaxable instance. -/
theorem C4_setup_error_semantics_witness :
    setupCommitteeGeneration catsRelax [] 2 false [] SetupOutcome.infeasible
        (RelaxOutcome.optimal dmW dpW) =
      Except.error (PyErr.infeasibleQuotas
        [(("f", "v1"), (1, 2)), (("f", "v2"), (0, 1))]
        ["The quotas are infeasible:", "Recommend lowering lower quota of f:v1 to 1."]) :=
  (C4_setup_error_semantics catsRelax [] 2 false [] RelaxOutcome.infeasible 5 dmW dpW).1
    [(("f", "v1"), (1, 2)), (("f", "v2"), (0, 1))]
    ["Recommend lowering lower quota of f:v1 to 1."] rfl

/-- Claim C8: whenever the relaxer returns, every `(feature, value)` gets a
suggestion `(new_min, new_max)` with
`min_flex ≤ new_min ≤ min` and `max ≤ new_max ≤ max_flex`, provided the
slack values reported by the solver satisfy the relaxer model constraints
(slacks nonnegative, `min - d⁻ ≥ min_flex`, `max + d⁺ ≤ max_flex`). -/
theorem C8_relaxed_quota_bounds (categories : Cats) (people : People) (k : Nat)
    (csa : Bool) (households : Households) (dminus dplus : String × String → Int)
    (q : List ((String × String) × (Int × Int))) (lines : List String)
    (hfeas : ∀ fc ∈ categories, ∀ vc ∈ fc.2,
      0 ≤ dminus (fc.1, vc.1) ∧ 0 ≤ dplus (fc.1, vc.1) ∧
      vc.2.cminFlex ≤ vc.2.cmin - dminus (fc.1, vc.1) ∧
      vc.2.cmax + dplus (fc.1, vc.1) ≤ vc.2.cmaxFlex)
    (hnf : (categories.map Prod.fst).Nodup)
    (hnv : ∀ fc ∈ categories, (fc.2.map Prod.fst).Nodup)
    (hok : relaxInfeasibleQuotas categories people k csa households
      (RelaxOutcome.optimal dminus dplus) = Except.ok (q, lines)) :
    ∀ fc ∈ categories, ∀ vc ∈ fc.2,
      ((fc.1, vc.1),
        (vc.2.cmin - dminus (fc.1, vc.1), vc.2.cmax + dplus (fc.1, vc.1))) ∈ q ∧
      vc.2.cminFlex ≤ vc.2.cmin - dminus (fc.1, vc.1) ∧
      vc.2.cmin - dminus (fc.1, vc.1) ≤ vc.2.cmin ∧
      vc.2.cmax ≤ vc.2.cmax + dplus (fc.1, vc.1) ∧
      vc.2.cmax + dplus (fc.1, vc.1) ≤ vc.2.cmaxFlex := by
  intro fc hfc vc hvc
  obtain ⟨hdm, hdp, hl, hu⟩ := hfeas fc hfc vc hvc
  have hlk : lookupD (lookupD categories fc.1 []) vc.1 default = vc.2 := by
    unfold lookupD
    rw [lookup_of_nodup categories fc.1 fc.2 hnf (by simpa using hfc)]
    simp only [Option.getD_some]
    rw [lookup_of_nodup fc.2 vc.1 vc.2 (hnv fc hfc) (by simpa using hvc)]
    rfl
  have hq : q = (featureValues categories).map (fun fv =>
      (fv, ((lookupD (lookupD categories fv.1 []) fv.2 default).cmin - dminus fv,
            (lookupD (lookupD categories fv.1 []) fv.2 default).cmax + dplus fv))) := by
    have := relaxSuggest_fold_ok categories dminus dplus (featureValues categories)
      ([], []) (q, lines) hok
    simpa using this
  refine ⟨?_, hl, by omega, by omega, hu⟩
  rw [hq]
  have hmemfv : (fc.1, vc.1) ∈ featureValues categories := by
    unfold featureValues
    refine List.mem_flatten.mpr ⟨fc.2.map (fun w => (fc.1, w.1)), ?_, ?_⟩
    · exact List.mem_map.mpr ⟨fc, hfc, rfl⟩
    · exact List.mem_map.mpr ⟨vc, hvc, rfl⟩
  refine List.mem_map.mpr ⟨(fc.1, vc.1), hmemfv, ?_⟩
  simp only [hlk]

/-- Witness for C8 at the concrete relaxable instance. -/
theorem C8_relaxed_quota_bounds_witness :
    ((∀ fc ∈ catsRelax, ∀ vc ∈ fc.2,
      0 ≤ dmW (fc.1, vc.1) ∧ 0 ≤ dpW (fc.1, vc.1) ∧
      vc.2.cminFlex ≤ vc.2.cmin - dmW (fc.1, vc.1) ∧
      vc.2.cmax + dpW (fc.1, vc.1) ≤ vc.2.cmaxFlex) ∧
      relaxInfeasibleQuotas catsRelax [] 2 false [] (RelaxOutcome.optimal dmW dpW) =
        Except.ok ([(("f", "v1"), (1, 2)), (("f", "v2"), (0, 1))],
          ["Recommend lowering lower quota of f:v1 to 1."])) ∧
    (∀ fc ∈ catsRelax, ∀ vc ∈ fc.2,
      ((fc.1, vc.1), (vc.2.cmin - dmW (fc.1, vc.1), vc.2.cmax + dpW (fc.1, vc.1))) ∈
        [(("f", "v1"), (1, 2)), (("f", "v2"), (0, 1))] ∧
      vc.2.cminFlex ≤ vc.2.cmin - dmW (fc.1, vc.1) ∧
      vc.2.cmin - dmW (fc.1, vc.1) ≤ vc.2.cmin ∧
      vc.2.cmax ≤ vc.2.cmax + dpW (fc.1, vc.1) ∧
      vc.2.cmax + dpW (fc.1, vc.1) ≤ vc.2.cmaxFlex) :=
  ⟨⟨by decide, rfl⟩,
    C8_relaxed_quota_bounds catsRelax [] 2 false [] dmW dpW
      [(("f", "v1"), (1, 2)), (("f", "v2"), (0, 1))]
      ["Recommend lowering lower quota of f:v1 to 1."]
      (by decide) (by decide) (by decide) rfl⟩

/-! ### C5: default flex bounds when the flex columns are absent -/

/-- Values surviving `updateAssoc` keep a property preserved by `f`. -/
theorem updateAssoc_forall {α : Type} {P : α → Prop} (l : List (String × α)) (k : String)
    (f : α → α) (h : ∀ p ∈ l, P p.2) (hf : ∀ p ∈ l, P (f p.2)) :
    ∀ p ∈ updateAssoc l k f, P p.2 := by
  intro p hp
  rcases List.mem_map.mp hp with ⟨q, hq, rfl⟩
  split
  · exact hf q hq
  · exact h q hq

/-- `addCatRow` preserves a property of all stored records when the new
record has it. -/
theorem addCatRow_forall (P : CatItem → Prop) (cats : Cats) (cat catValue : String)
    (item : CatItem) (h : ∀ fc ∈ cats, ∀ vc ∈ fc.2, P vc.2) (hitem : P item) :
    ∀ fc ∈ addCatRow cats cat catValue item, ∀ vc ∈ fc.2, P vc.2 := by
  unfold addCatRow
  intro fc hfc vc hvc
  split at hfc
  · rcases List.mem_map.mp hfc with ⟨q, hq, rfl⟩
    by_cases hqk : (q.1 == cat) = true
    · rw [if_pos hqk] at hvc
      dsimp only at hvc
      split at hvc
      · exact updateAssoc_forall q.2 catValue _ (h q hq) (fun p _ => hitem) vc hvc
      · rcases List.mem_append.mp hvc with hvc | hvc
        · exact h q hq vc hvc
        · rcases List.mem_singleton.mp hvc with rfl
          exact hitem
    · rw [if_neg hqk] at hvc
      exact h q hq vc hvc
  · rcases List.mem_append.mp hfc with hfc | hfc
    · exact h fc hfc vc hvc
    · rcases List.mem_singleton.mp hfc with rfl
      rcases List.mem_singleton.mp hvc with rfl
      exact hitem

/-- With the flex columns absent, every record produced by the reading loop
has `min_flex = 0` and the placeholder `max_flex = -1`. -/
theorem readInCats_fold_flex :
    ∀ (rows : List CatRow) (acc out : Cats × List (String × Int × Int)),
      (∀ fc ∈ acc.1, ∀ vc ∈ fc.2, vc.2.cminFlex = 0 ∧ vc.2.cmaxFlex = -1) →
      rows.foldlM (readCatRow false) acc = Except.ok out →
      ∀ fc ∈ out.1, ∀ vc ∈ fc.2, vc.2.cminFlex = 0 ∧ vc.2.cmaxFlex = -1 := by
  intro rows
  induction rows with
  | nil =>
    intro acc out hacc h
    simp only [List.foldlM_nil] at h
    cases h
    exact hacc
  | cons row rows ih =>
    intro acc out hacc h
    rw [List.foldlM_cons] at h
    cases hstep : readCatRow false acc row with
    | error e =>
      rw [hstep] at h
      simp only [bind, Except.bind] at h
      simp at h
    | ok acc' =>
      rw [hstep] at h
      simp only [bind, Except.bind] at h
      refine ih acc' out ?_ h
      unfold readCatRow at hstep
      by_cases hblank : row.category = ""
      · rw [if_pos hblank] at hstep
        simp only [pure, Except.pure] at hstep
        cases hstep
        exact hacc
      · rw [if_neg hblank] at hstep
        dsimp only at hstep
        rw [if_neg (by simp)] at hstep
        simp only [pure, Except.pure] at hstep
        cases hstep
        exact addCatRow_forall (fun it => it.cminFlex = 0 ∧ it.cmaxFlex = -1)
          acc.1 row.category row.name _ hacc ⟨by simp, by simp⟩

/-- Claim C5 (amended): when the categories input has no flex columns,
every `(feature, value)` pair receives the defaults `min_flex = 0` and
`max_flex = max(max_values)` — the largest per-feature *sum* of `max`
quotas, a finite bound (not `+∞`). -/
theorem C5_default_flex (rows : List CatRow) (cats : Cats)
    (mm : List (String × Int × Int))
    (hok : readInCatsCore false rows = Except.ok (cats, mm)) :
    ∀ fc ∈ cats, ∀ vc ∈ fc.2,
      vc.2.cminFlex = 0 ∧ some vc.2.cmaxFlex = (mm.map (fun x => x.2.2)).max? := by
  unfold readInCatsCore at hok
  cases hfold : rows.foldlM (readCatRow false) ([], []) with
  | error e =>
    rw [hfold] at hok
    simp only [bind, Except.bind] at hok
    simp at hok
  | ok st =>
    rw [hfold] at hok
    simp only [bind, Except.bind] at hok
    have hflex := readInCats_fold_flex rows ([], []) st (by simp) hfold
    rcases hmin : (st.2.map (fun x => x.2.2)).min? with _ | maxVal
    all_goals rcases hmax : (st.2.map (fun x => x.2.2)).max? with _ | maxFlexVal
    all_goals rcases hminv : (st.2.map (fun x => x.2.1)).max? with _ | minVal
    all_goals rw [hmin, hmax, hminv] at hok
    all_goals dsimp only at hok
    case ok.none.none.none | ok.none.none.some | ok.none.some.none | ok.none.some.some
      | ok.some.none.none | ok.some.none.some | ok.some.some.none =>
      cases hok
    case ok.some.some.some =>
      split_ifs at hok with hcmp
      simp only [pure, Except.pure] at hok
      cases hok
      intro fc hfc vc hvc
      rcases List.mem_map.mp hfc with ⟨fc0, hfc0, rfl⟩
      dsimp only at hvc
      rcases List.mem_map.mp hvc with ⟨vc0, hvc0, rfl⟩
      obtain ⟨hmf, hxf⟩ := hflex fc0 hfc0 vc0 hvc0
      dsimp only
      rw [hmax, if_pos hxf]
      exact ⟨hmf, rfl⟩

/-- Witness for C5 at a concrete two-row categories table. -/
theorem C5_default_flex_witness :
    (readInCatsCore false [⟨"A", "a1", 2, 2, 0, 0⟩, ⟨"A", "a2", 0, 0, 0, 0⟩] =
      Except.ok ([("A", [("a1", ⟨2, 2, 0, 2, 0, 0⟩), ("a2", ⟨0, 0, 0, 2, 0, 0⟩)])],
        [("A", (2, 2))])) ∧
    (∀ fc ∈ ([("A", [("a1", (⟨2, 2, 0, 2, 0, 0⟩ : CatItem)),
        ("a2", ⟨0, 0, 0, 2, 0, 0⟩)])] : Cats), ∀ vc ∈ fc.2,
      vc.2.cminFlex = 0 ∧
      some vc.2.cmaxFlex = (([("A", (2, 2))] : List (String × Int × Int)).map
        (fun x => x.2.2)).max?) :=
  ⟨rfl,
    C5_default_flex [⟨"A", "a1", 2, 2, 0, 0⟩, ⟨"A", "a2", 0, 0, 0, 0⟩]
      [("A", [("a1", ⟨2, 2, 0, 2, 0, 0⟩), ("a2", ⟨0, 0, 0, 2, 0, 0⟩)])]
      [("A", (2, 2))] rfl⟩

/-- Claim C5 counterexample: on a table whose largest per-feature sum of
`max` quotas is 2, the default `max_flex` of `(A, a2)` is the finite value
2, and the claimed "imposes no constraint" reading fails already for a
relaxation of 3 (the relaxer constraint `max + d⁺ ≤ max_flex` is violated
at `d⁺ = 3`), so `max_flex` is not defaulted to `+∞`. -/
theorem C5_counterexample :
    readInCatsCore false [⟨"A", "a1", 2, 2, 0, 0⟩, ⟨"A", "a2", 0, 0, 0, 0⟩] =
      Except.ok ([("A", [("a1", ⟨2, 2, 0, 2, 0, 0⟩), ("a2", ⟨0, 0, 0, 2, 0, 0⟩)])],
        [("A", (2, 2))]) ∧
    ¬ ((lookupD (lookupD [("A", [("a1", (⟨2, 2, 0, 2, 0, 0⟩ : CatItem)),
          ("a2", ⟨0, 0, 0, 2, 0, 0⟩)])] "A" []) "a2" default).cmax + 3 ≤
        (lookupD (lookupD [("A", [("a1", (⟨2, 2, 0, 2, 0, 0⟩ : CatItem)),
          ("a2", ⟨0, 0, 0, 2, 0, 0⟩)])] "A" []) "a2" default).cmaxFlex) :=
  ⟨rfl, by decide⟩

/-! ### C6: multiplicative-weights round counts -/

/-- The multiplicative-weights stage increments its round counter exactly
once per round. -/
theorem mwPhase_rounds (solve : (String → ℚ) → (String → Bool)) (people : People) :
    ∀ (rounds : Nat) (st : List (Finset String) × Finset String × (String → ℚ) × Nat),
      (mwPhase solve people rounds st).2.2.2 = st.2.2.2 + rounds := by
  intro rounds
  induction rounds with
  | zero => intro st; rfl
  | succ n ih =>
    intro st
    rw [mwPhase]
    dsimp only
    split
    · rw [ih]
      dsimp only
      omega
    · rw [ih]
      dsimp only
      omega

/-- The round count reported by `_generate_initial_committees` is exactly
its `multiplicative_weights_rounds` argument. -/
theorem generateInitial_mwRounds (solve : (String → ℚ) → (String → Bool))
    (people : People) (rounds : Nat) (res : InitCommitteesResult)
    (hok : generateInitialCommittees solve people rounds = Except.ok res) :
    res.mwRounds = rounds := by
  unfold generateInitialCommittees at hok
  dsimp only at hok
  split_ifs at hok with hlt
  all_goals simp only [pure, Except.pure] at hok
  all_goals cases hok
  all_goals dsimp only
  all_goals simpa using mwPhase_rounds solve people rounds ([], ∅, fun _ => 1, 0)

/-- Claim C6 (amended): the multiplicative-weights stage runs
`3 * |pool|` rounds on the leximin path, `2 * |pool|` on the nash path and
`|pool|` on the maximin path (not `|pool|`, `|pool|`, `|pool| / 2` as the
spec states). -/
theorem C6_mw_rounds (people : People) (solve : (String → ℚ) → (String → Bool))
    (res1 res2 res3 : InitCommitteesResult)
    (h1 : generateInitialCommittees solve people (leximinMWRounds people) = Except.ok res1)
    (h2 : generateInitialCommittees solve people (nashMWRounds people) = Except.ok res2)
    (h3 : generateInitialCommittees solve people (maximinMWRounds people) = Except.ok res3) :
    res1.mwRounds = 3 * people.length ∧ res2.mwRounds = 2 * people.length ∧
    res3.mwRounds = people.length :=
  ⟨generateInitial_mwRounds solve people _ res1 h1,
   generateInitial_mwRounds solve people _ res2 h2,
   generateInitial_mwRounds solve people _ res3 h3⟩

/-- Witness for C6 at the concrete `peopleW` pool. -/
theorem C6_mw_rounds_witness :
    ({ committees := [({"p1"} : Finset String)], coveredAgents := {"p1"},
       lines := ["Agent p2 not contained in any feasible committee."],
       mwRounds := 6 } : InitCommitteesResult).mwRounds = 3 * peopleW.length ∧
    ({ committees := [({"p1"} : Finset String)], coveredAgents := {"p1"},
       lines := ["Agent p2 not contained in any feasible committee."],
       mwRounds := 4 } : InitCommitteesResult).mwRounds = 2 * peopleW.length ∧
    ({ committees := [({"p1"} : Finset String)], coveredAgents := {"p1"},
       lines := ["Agent p2 not contained in any feasible committee."],
       mwRounds := 2 } : InitCommitteesResult).mwRounds = peopleW.length :=
  C6_mw_rounds peopleW solveW _ _ _ rfl rfl rfl

/-- Claim C6 counterexample: on a two-person pool the source round counts
are 6 (leximin), 4 (nash) and 2 (maximin), so the claimed counts
`|pool|`, `|pool|` and `|pool| / 2` are wrong on all three paths. -/
theorem C6_counterexample :
    ¬ (leximinMWRounds peopleW = peopleW.length ∧
       nashMWRounds peopleW = peopleW.length ∧
       maximinMWRounds peopleW = peopleW.length / 2) := by
  decide

/-! ### C10: transparent lotteries only on the optimization paths -/

/-- Claim C10: whenever `number_selections ≠ 1` and either `test_selection`
is set or the selection algorithm is `legacy`, `find_random_sample` raises
a `ValueError` — for every oracle behaviour, i.e. before any selection
work happens. -/
theorem C10_number_selections_guard (categories : Cats) (people : People)
    (columnsData : ColumnsData) (k : Nat) (csa : Bool) (cols : List String)
    (algo : String) (testSel : Bool) (numSel : Nat) (g : Bool) (oc : AttemptOracles)
    (hnum : numSel ≠ 1) (halg : testSel = true ∨ algo = "legacy") :
    ∃ m, findRandomSample categories people columnsData k csa cols algo testSel numSel g oc
      = Except.error (PyErr.valueError m) := by
  unfold findRandomSample
  cases hqc : quotaInconsistency categories with
  | some fv => exact ⟨_, rfl⟩
  | none =>
    by_cases hcsa : csa = true ∧ cols.length = 0
    · rw [if_pos hcsa]
      exact ⟨_, rfl⟩
    · rw [if_neg hcsa]
      by_cases hts : testSel = true
      · rw [if_pos hts, if_pos hnum]
        exact ⟨_, rfl⟩
      · rw [if_neg hts]
        rcases halg with h | rfl
        · exact absurd h hts
        · dsimp only
          have hne : ¬("legacy" = "leximin" ∧ g = false) := by simp
          rw [if_neg hne, if_neg hne, if_pos rfl, if_pos hnum]
          exact ⟨_, rfl⟩

/-- Witness for C10: a concrete test-selection call with two requested
panels fails with a `ValueError`. -/
theorem C10_number_selections_guard_witness :
    ((2 : Nat) ≠ 1 ∧ (true = true ∨ "maximin" = "legacy")) ∧
    ∃ m, findRandomSample catsW peopleW [] 1 false [] "maximin" true 2 true oraclesCx
      = Except.error (PyErr.valueError m) :=
  ⟨⟨by decide, Or.inl rfl⟩,
    C10_number_selections_guard catsW peopleW [] 1 false [] "maximin" true 2 true oraclesCx
      (by decide) (Or.inl rfl)⟩

/-! ### C9: the standardized distribution fed into lottery rounding -/

/-- Mapping division over a list divides its sum. -/
theorem sum_map_div (l : List ℚ) (c : ℚ) : (l.map (fun x => x / c)).sum = l.sum / c := by
  induction l with
  | nil => simp
  | cons x l ih =>
    simp only [List.map_cons, List.sum_cons, ih, add_div]

/-- A nonempty list of rationals all below `c` sums to less than
`length * c`. -/
theorem sum_lt_of_forall_lt :
    ∀ (l : List ℚ) (c : ℚ), (∀ x ∈ l, x < c) → l ≠ [] → l.sum < l.length * c := by
  intro l
  induction l with
  | nil => intro c _ h; exact absurd rfl h
  | cons x l ih =>
    intro c hall _
    have hx := hall x (List.mem_cons_self x l)
    cases l with
    | nil => simpa using hx
    | cons y l0 =>
      have hl : (y :: l0).sum < ((y :: l0).length : ℚ) * c :=
        ih c (fun z hz => hall z (List.mem_cons_of_mem x hz)) (by simp)
      simp only [List.sum_cons, List.length_cons] at *
      push_cast at *
      nlinarith

/-- Claim C9: on any distribution shaped like the output of the maximin,
leximin or nash optimizer (pairwise distinct committees, nonnegative
probabilities summing exactly to 1, fewer than `1 / EPS2` committees), the
standardized distribution passed to lottery rounding has no duplicate
committees, every probability in `[0, 1]`, and probabilities summing to
exactly 1 (hence within `10⁻⁴` of 1). -/
theorem C9_standardized_distribution (committees : List (Finset String))
    (probabilities : List ℚ)
    (hlen : committees.length = probabilities.length)
    (hnodup : committees.Nodup)
    (hnn : ∀ p ∈ probabilities, 0 ≤ p)
    (hsum : probabilities.sum = 1)
    (hsize : probabilities.length ≤ 100000000) :
    (standardizeDistribution committees probabilities).1.Nodup ∧
    (∀ q ∈ (standardizeDistribution committees probabilities).2, 0 ≤ q ∧ q ≤ 1) ∧
    (standardizeDistribution committees probabilities).2.sum = 1 := by
  unfold standardizeDistribution
  dsimp only
  have hzip : (committees.zip probabilities).map Prod.snd = probabilities :=
    List.map_snd_zip committees probabilities (le_of_eq hlen.symm)
  have hkeptmem : ∀ cp ∈ (committees.zip probabilities).filter
      (fun cp => decide (EPS2 ≤ cp.2)), EPS2 ≤ cp.2 := by
    intro cp hcp
    have := (List.mem_filter.mp hcp).2
    simpa using this
  have hkeptne : (committees.zip probabilities).filter
      (fun cp => decide (EPS2 ≤ cp.2)) ≠ [] := by
    intro hnil
    have hall : ∀ p ∈ probabilities, p < EPS2 := by
      intro p hp
      rw [← hzip] at hp
      rcases List.mem_map.mp hp with ⟨cp, hcp, rfl⟩
      have := List.filter_eq_nil_iff.mp hnil cp hcp
      simp only [decide_eq_true_eq] at this
      linarith [lt_of_not_le this]
    have hne : probabilities ≠ [] := by
      intro h0
      rw [h0] at hsum
      simp at hsum
    have hlt := sum_lt_of_forall_lt probabilities EPS2 hall hne
    rw [hsum] at hlt
    have hlen8 : (probabilities.length : ℚ) ≤ 100000000 := by exact_mod_cast hsize
    have heps : (0 : ℚ) < EPS2 := by norm_num [EPS2]
    have h8 : (100000000 : ℚ) * EPS2 = 1 := by norm_num [EPS2]
    nlinarith
  have hS : 0 < (((committees.zip probabilities).filter
      (fun cp => decide (EPS2 ≤ cp.2))).map Prod.snd).sum := by
    refine List.sum_pos _ ?_ ?_
    · intro x hx
      rcases List.mem_map.mp hx with ⟨cp, hcp, rfl⟩
      have := hkeptmem cp hcp
      have heps : (0 : ℚ) < EPS2 := by norm_num [EPS2]
      linarith
    · simpa using hkeptne
  refine ⟨?_, ?_, ?_⟩
  · have hsub : List.Sublist (((committees.zip probabilities).filter
        (fun cp => decide (EPS2 ≤ cp.2))).map Prod.fst) committees := by
      have h1 : List.Sublist ((committees.zip probabilities).filter
          (fun cp => decide (EPS2 ≤ cp.2))) (committees.zip probabilities) :=
        List.filter_sublist _
      have h2 := h1.map Prod.fst
      rwa [List.map_fst_zip committees probabilities (le_of_eq hlen)] at h2
    exact hnodup.sublist hsub
  · intro q hq
    rcases List.mem_map.mp hq with ⟨cp, hcp, rfl⟩
    have hcp2 := hkeptmem cp hcp
    have heps : (0 : ℚ) < EPS2 := by norm_num [EPS2]
    constructor
    · exact div_nonneg (by linarith) (le_of_lt hS)
    · rw [div_le_one hS]
      refine List.single_le_sum ?_ _ (List.mem_map.mpr ⟨cp, hcp, rfl⟩)
      intro x hx
      rcases List.mem_map.mp hx with ⟨cq, hcq, rfl⟩
      have := hkeptmem cq hcq
      linarith
  · rw [show ((((committees.zip probabilities).filter
        (fun cp => decide (EPS2 ≤ cp.2))).map (fun cp => cp.2 /
          ((((committees.zip probabilities).filter
            (fun cp => decide (EPS2 ≤ cp.2))).map Prod.snd).sum)))) =
        ((((committees.zip probabilities).filter
          (fun cp => decide (EPS2 ≤ cp.2))).map Prod.snd).map (fun x => x /
            ((((committees.zip probabilities).filter
              (fun cp => decide (EPS2 ≤ cp.2))).map Prod.snd).sum))) from by
        rw [List.map_map]; rfl]
    rw [sum_map_div]
    exact div_self (ne_of_gt hS)

/-- Witness for C9 at a concrete three-committee distribution. -/
theorem C9_standardized_distribution_witness :
    (([({"a"} : Finset String), {"b"}, {"c"}].length = [1/2, 1/2, (0 : ℚ)].length ∧
      ([({"a"} : Finset String), {"b"}, {"c"}]).Nodup ∧
      (∀ p ∈ [1/2, 1/2, (0 : ℚ)], 0 ≤ p) ∧
      ([1/2, 1/2, (0 : ℚ)]).sum = 1 ∧
      ([1/2, 1/2, (0 : ℚ)]).length ≤ 100000000)) ∧
    ((standardizeDistribution [{"a"}, {"b"}, {"c"}] [1/2, 1/2, 0]).1.Nodup ∧
      (∀ q ∈ (standardizeDistribution [{"a"}, {"b"}, {"c"}] [1/2, 1/2, 0]).2,
        0 ≤ q ∧ q ≤ 1) ∧
      (standardizeDistribution [{"a"}, {"b"}, {"c"}] [1/2, 1/2, 0]).2.sum = 1) :=
  ⟨⟨by norm_num, by decide, by norm_num, by norm_num, by norm_num⟩,
    C9_standardized_distribution [{"a"}, {"b"}, {"c"}] [1/2, 1/2, 0]
      (by norm_num) (by decide) (by norm_num) (by norm_num) (by norm_num)⟩

/-! ### C7: coverage guarantee of the initial-committee generator -/

/-- Summing a delta function over a duplicate-free list containing its
support point. -/
theorem sum_delta (c : ℚ) :
    ∀ (l : List String) (id : String), l.Nodup → id ∈ l →
      (l.map (fun x => if x = id then c else 0)).sum = c := by
  intro l
  induction l with
  | nil => intro id _ h; cases h
  | cons x l ih =>
    intro id hn hm
    simp only [List.map_cons, List.sum_cons]
    rcases List.mem_cons.mp hm with rfl | hm
    · rw [if_pos rfl]
      have hx : id ∉ l := (List.nodup_cons.mp hn).1
      have hz : (l.map (fun y => if y = id then c else 0)).sum = 0 := by
        refine List.sum_eq_zero ?_
        intro z hz
        rcases List.mem_map.mp hz with ⟨y, hy, rfl⟩
        rw [if_neg]
        rintro rfl
        exact hx hy
      rw [hz, add_zero]
    · have hx : ¬ (x = id) := by
        rintro rfl
        exact (List.nodup_cons.mp hn).1 hm
      rw [if_neg hx, ih id (List.nodup_cons.mp hn).2 hm, zero_add]

/-- The objective with a delta weight vector evaluates to the indicator of
the distinguished agent. -/
theorem objValue_delta (people : People) (hn : (people.map Prod.fst).Nodup)
    (id : String) (hid : id ∈ people.map Prod.fst) (a : String → Bool) :
    objValue people (fun j => if j == id then 1 else 0) a =
      if a id = true then 1 else 0 := by
  unfold objValue
  have hcong : ∀ x : String,
      (if a x = true then (if (x == id) = true then (1 : ℚ) else 0) else 0) =
      (if x = id then (if a id = true then (1 : ℚ) else 0) else 0) := by
    intro x
    by_cases hx : x = id
    · subst hx
      by_cases hax : a x = true <;> simp [hax]
    · have hb : (x == id) = false := by simpa using hx
      by_cases hax : a x = true <;> simp [hax, hb, hx]
  simp only [hcong]
  exact sum_delta _ (people.map Prod.fst) id hn hid

/-- A correct solver run with a delta objective selects any coverable
agent. -/
theorem solve_delta_covers (categories : Cats) (people : People) (k : Int)
    (csa : Bool) (households : Households) (solve : (String → ℚ) → (String → Bool))
    (hsc : SolverCorrect categories people k csa households solve)
    (hn : (people.map Prod.fst).Nodup) (id : String) (hid : id ∈ people.map Prod.fst)
    (hcov : Coverable categories people k csa households id) :
    solve (fun j => if j == id then 1 else 0) id = true := by
  obtain ⟨a, ha, haid⟩ := hcov
  have h2 := (hsc (fun j => if j == id then 1 else 0)).2 a ha
  rw [objValue_delta people hn id hid a, objValue_delta people hn id hid] at h2
  rw [if_pos haid] at h2
  by_contra hfalse
  rw [if_neg hfalse] at h2
  norm_num at h2

/-- Members of a committee extracted from a correct solver run are
coverable. -/
theorem mem_solver_committee_coverable (categories : Cats) (people : People) (k : Int)
    (csa : Bool) (households : Households) (solve : (String → ℚ) → (String → Bool))
    (hsc : SolverCorrect categories people k csa households solve) (w : String → ℚ)
    (x : String) (hx : x ∈ ilpResultsToCommittee people (solve w)) :
    Coverable categories people k csa households x :=
  ⟨solve w, (hsc w).1, (mem_ilpResultsToCommittee.mp hx).2⟩

/-- The multiplicative-weights stage only adds solver committees: covered
agents stay coverable and stay inside some discovered committee. -/
theorem mwPhase_inv (categories : Cats) (people : People) (k : Int) (csa : Bool)
    (households : Households) (solve : (String → ℚ) → (String → Bool))
    (hsc : SolverCorrect categories people k csa households solve) :
    ∀ (rounds : Nat) (st : List (Finset String) × Finset String × (String → ℚ) × Nat),
      (∀ x ∈ st.2.1, Coverable categories people k csa households x) →
      (∀ x ∈ st.2.1, ∃ C ∈ st.1, x ∈ C) →
      (∀ x ∈ (mwPhase solve people rounds st).2.1,
        Coverable categories people k csa households x) ∧
      (∀ x ∈ (mwPhase solve people rounds st).2.1,
        ∃ C ∈ (mwPhase solve people rounds st).1, x ∈ C) := by
  intro rounds
  induction rounds with
  | zero => intro st h1 h2; exact ⟨h1, h2⟩
  | succ n ih =>
    intro st h1 h2
    rw [mwPhase]
    dsimp only
    split
    · exact ih _ h1 h2
    · refine ih _ ?_ ?_
      · intro x hx
        rcases Finset.mem_union.mp hx with hx | hx
        · exact h1 x hx
        · exact mem_solver_committee_coverable categories people k csa households solve
            hsc _ x hx
      · intro x hx
        rcases Finset.mem_union.mp hx with hx | hx
        · obtain ⟨C, hC, hxC⟩ := h2 x hx
          exact ⟨C, List.mem_append_left _ hC, hxC⟩
        · exact ⟨_, List.mem_append_right _ (List.mem_singleton.mpr rfl), hx⟩

/-- The per-agent coverage stage: every processed coverable agent ends up
in a returned committee, every processed uncoverable agent is reported,
committees and lines only grow, and the running invariants persist. -/
theorem coverPhase_spec (categories : Cats) (people : People) (k : Int) (csa : Bool)
    (households : Households) (solve : (String → ℚ) → (String → Bool))
    (hsc : SolverCorrect categories people k csa households solve)
    (hn : (people.map Prod.fst).Nodup) :
    ∀ (ids : List String) (st : List (Finset String) × Finset String × List String),
      (∀ id ∈ ids, id ∈ people.map Prod.fst) →
      (∀ x ∈ st.2.1, Coverable categories people k csa households x) →
      (∀ x ∈ st.2.1, ∃ C ∈ st.1, x ∈ C) →
      (∀ id ∈ ids,
        (Coverable categories people k csa households id →
          ∃ C ∈ (coverPhase solve people ids st).1, id ∈ C) ∧
        (¬ Coverable categories people k csa households id →
          ("Agent " ++ id ++ " not contained in any feasible committee.")
            ∈ (coverPhase solve people ids st).2.2)) ∧
      (∀ C ∈ st.1, C ∈ (coverPhase solve people ids st).1) ∧
      (∀ line ∈ st.2.2, line ∈ (coverPhase solve people ids st).2.2) := by
  intro ids
  induction ids with
  | nil =>
    intro st _ _ _
    exact ⟨fun id h => absurd h (List.not_mem_nil id), fun C hC => hC, fun l hl => hl⟩
  | cons id ids ih =>
    intro st hids hcov hin
    rw [coverPhase]
    dsimp only
    by_cases hidc : id ∈ st.2.1
    · rw [if_pos hidc]
      obtain ⟨hrest, hmonoC, hmonoL⟩ := ih st (fun j hj => hids j (List.mem_cons_of_mem id hj))
        hcov hin
      refine ⟨?_, hmonoC, hmonoL⟩
      intro j hj
      rcases List.mem_cons.mp hj with rfl | hj
      · constructor
        · intro _
          obtain ⟨C, hC, hjC⟩ := hin j hidc
          exact ⟨C, hmonoC C hC, hjC⟩
        · intro hnc
          exact absurd (hcov j hidc) hnc
      · exact hrest j hj
    · rw [if_neg hidc]
      by_cases hmem : id ∈ ilpResultsToCommittee people
          (solve (fun j => if j == id then 1 else 0))
      · rw [if_pos hmem]
        have hcov' : ∀ x ∈ st.2.1 ∪ ilpResultsToCommittee people
            (solve (fun j => if j == id then 1 else 0)),
            Coverable categories people k csa households x := by
          intro x hx
          rcases Finset.mem_union.mp hx with hx | hx
          · exact hcov x hx
          · exact mem_solver_committee_coverable categories people k csa households solve
              hsc _ x hx
        have hN : (if ilpResultsToCommittee people
              (solve (fun j => if j == id then 1 else 0)) ∈ st.1 then st.1
            else st.1 ++ [ilpResultsToCommittee people
              (solve (fun j => if j == id then 1 else 0))]).length =
            (if ilpResultsToCommittee people
              (solve (fun j => if j == id then 1 else 0)) ∈ st.1 then st.1
            else st.1 ++ [ilpResultsToCommittee people
              (solve (fun j => if j == id then 1 else 0))]).length := rfl
        have hNin : ilpResultsToCommittee people
            (solve (fun j => if j == id then 1 else 0)) ∈
            (if ilpResultsToCommittee people
              (solve (fun j => if j == id then 1 else 0)) ∈ st.1 then st.1
            else st.1 ++ [ilpResultsToCommittee people
              (solve (fun j => if j == id then 1 else 0))]) := by
          split
          · assumption
          · exact List.mem_append_right _ (List.mem_singleton.mpr rfl)
        have holdin : ∀ C ∈ st.1, C ∈
            (if ilpResultsToCommittee people
              (solve (fun j => if j == id then 1 else 0)) ∈ st.1 then st.1
            else st.1 ++ [ilpResultsToCommittee people
              (solve (fun j => if j == id then 1 else 0))]) := by
          intro C hC
          split
          · exact hC
          · exact List.mem_append_left _ hC
        have hin' : ∀ x ∈ st.2.1 ∪ ilpResultsToCommittee people
            (solve (fun j => if j == id then 1 else 0)),
            ∃ C ∈ (if ilpResultsToCommittee people
              (solve (fun j => if j == id then 1 else 0)) ∈ st.1 then st.1
            else st.1 ++ [ilpResultsToCommittee people
              (solve (fun j => if j == id then 1 else 0))]), x ∈ C := by
          intro x hx
          rcases Finset.mem_union.mp hx with hx | hx
          · obtain ⟨C, hC, hxC⟩ := hin x hx
            exact ⟨C, holdin C hC, hxC⟩
          · exact ⟨_, hNin, hx⟩
        obtain ⟨hrest, hmonoC, hmonoL⟩ := ih
          ((if ilpResultsToCommittee people
              (solve (fun j => if j == id then 1 else 0)) ∈ st.1 then st.1
            else st.1 ++ [ilpResultsToCommittee people
              (solve (fun j => if j == id then 1 else 0))]),
            st.2.1 ∪ ilpResultsToCommittee people
              (solve (fun j => if j == id then 1 else 0)), st.2.2)
          (fun j hj => hids j (List.mem_cons_of_mem id hj)) hcov' hin'
        refine ⟨?_, fun C hC => hmonoC C (holdin C hC), hmonoL⟩
        intro j hj
        rcases List.mem_cons.mp hj with rfl | hj
        · constructor
          · intro _
            exact ⟨_, hmonoC _ hNin, hmem⟩
          · intro hnc
            exact absurd (mem_solver_committee_coverable categories people k csa
              households solve hsc _ j hmem) hnc
        · exact hrest j hj
      · rw [if_neg hmem]
        obtain ⟨hrest, hmonoC, hmonoL⟩ := ih
          (st.1, st.2.1, st.2.2 ++
            ["Agent " ++ id ++ " not contained in any feasible committee."])
          (fun j hj => hids j (List.mem_cons_of_mem id hj)) hcov hin
        refine ⟨?_, hmonoC, ?_⟩
        · intro j hj
          rcases List.mem_cons.mp hj with rfl | hj
          · constructor
            · intro hc
              have := solve_delta_covers categories people k csa households solve hsc hn
                j (hids j (List.mem_cons_self j ids)) hc
              exact absurd (mem_ilpResultsToCommittee.mpr
                ⟨hids j (List.mem_cons_self j ids), this⟩) hmem
            · intro _
              exact hmonoL _ (List.mem_append_right _ (List.mem_singleton.mpr rfl))
          · exact hrest j hj
        · intro line hline
          exact hmonoL line (List.mem_append_left _ hline)

/-- Any satisfying assignment of the `catsW` model selects exactly `p1`:
the `v1` quotas force `p1` in and the `v2` quotas force `p2` out. -/
theorem modelW_char (a : String → Bool)
    (hmc : ModelConstraints catsW peopleW 1 false [] a) :
    a "p1" = true ∧ a "p2" = false := by
  obtain ⟨hsum, hq, hh⟩ := hmc
  have h1 := hq ("f", [("v1", ⟨1, 1, 0, 1, 0, 1⟩), ("v2", ⟨0, 0, 0, 0, 0, 1⟩)])
    (by simp [catsW]) ("v1", ⟨1, 1, 0, 1, 0, 1⟩) (by simp)
  have h2 := hq ("f", [("v1", ⟨1, 1, 0, 1, 0, 1⟩), ("v2", ⟨0, 0, 0, 0, 0, 1⟩)])
    (by simp [catsW]) ("v2", ⟨0, 0, 0, 0, 0, 1⟩) (by simp)
  have hf1 : peopleW.filter (fun p => personValue p.2 "f" == "v1") =
      [("p1", [("f", "v1")])] := by rfl
  have hf2 : peopleW.filter (fun p => personValue p.2 "f" == "v2") =
      [("p2", [("f", "v2")])] := by rfl
  dsimp only at h1 h2
  unfold countFV at h1 h2
  rw [hf1] at h1
  rw [hf2] at h2
  simp only [List.map_cons, List.map_nil, List.sum_cons, List.sum_nil, add_zero] at h1 h2
  unfold indicator at h1 h2
  cases hap : a "p1" with
  | false =>
    rw [hap] at h1
    simp at h1
  | true =>
    cases hbp : a "p2" with
    | false => exact ⟨rfl, rfl⟩
    | true =>
      rw [hbp] at h2
      simp at h2

/-- The constant solver `solveW` is correct for the `catsW` model: its
output is the unique satisfying assignment, hence optimal for every
objective. -/
theorem solveW_correct : SolverCorrect catsW peopleW 1 false [] solveW := by
  intro w
  constructor
  · show ModelConstraints catsW peopleW 1 false [] (fun id => id == "p1")
    decide
  · intro a hmc
    obtain ⟨hp1, hp2⟩ := modelW_char a hmc
    have hgoal : objValue peopleW w a = objValue peopleW w (solveW w) := by
      unfold objValue solveW peopleW
      simp [hp1, hp2]
    exact le_of_eq hgoal

/-- Claim C7: whenever `_generate_initial_committees` returns (under a
correct ILP solver and distinct agent ids), every agent contained in at
least one feasible committee is contained in at least one returned
committee, and every agent contained in no feasible committee is reported
by an output line naming it. -/
theorem C7_initial_committees_cover (categories : Cats) (people : People) (k : Int)
    (csa : Bool) (households : Households) (solve : (String → ℚ) → (String → Bool))
    (rounds : Nat) (res : InitCommitteesResult)
    (hsc : SolverCorrect categories people k csa households solve)
    (hn : (people.map Prod.fst).Nodup)
    (hok : generateInitialCommittees solve people rounds = Except.ok res) :
    ∀ id ∈ people.map Prod.fst,
      (Coverable categories people k csa households id →
        ∃ C ∈ res.committees, id ∈ C) ∧
      (¬ Coverable categories people k csa households id →
        ("Agent " ++ id ++ " not contained in any feasible committee.") ∈ res.lines) := by
  have hmw := mwPhase_inv categories people k csa households solve hsc rounds
    ([], ∅, fun _ => 1, 0)
    (by intro x hx; exact absurd hx (Finset.not_mem_empty x))
    (by intro x hx; exact absurd hx (Finset.not_mem_empty x))
  have hcp := coverPhase_spec categories people k csa households solve hsc hn
    (people.map Prod.fst)
    ((mwPhase solve people rounds ([], ∅, fun _ => 1, 0)).1,
     (mwPhase solve people rounds ([], ∅, fun _ => 1, 0)).2.1, [])
    (fun j hj => hj) hmw.1 hmw.2
  unfold generateInitialCommittees at hok
  dsimp only at hok
  split_ifs at hok with hlt hall
  all_goals simp only [pure, Except.pure] at hok
  all_goals cases hok
  all_goals dsimp only
  · intro id hid
    exact ⟨fun hc => (hcp.1 id hid).1 hc,
      fun hnc => List.mem_append_left _ ((hcp.1 id hid).2 hnc)⟩
  · intro id hid
    exact ⟨fun hc => (hcp.1 id hid).1 hc, fun hnc => (hcp.1 id hid).2 hnc⟩

/-- Witness for C7 on the `catsW` pool: `p1` (coverable) lands in the
returned committee and `p2` (uncoverable) is reported. -/
theorem C7_initial_committees_cover_witness :
    (SolverCorrect catsW peopleW 1 false [] solveW ∧
      (peopleW.map Prod.fst).Nodup ∧
      generateInitialCommittees solveW peopleW 0 = Except.ok
        { committees := [{"p1"}], coveredAgents := {"p1"},
          lines := ["Agent p2 not contained in any feasible committee."],
          mwRounds := 0 }) ∧
    (∀ id ∈ peopleW.map Prod.fst,
      (Coverable catsW peopleW 1 false [] id →
        ∃ C ∈ [({"p1"} : Finset String)], id ∈ C) ∧
      (¬ Coverable catsW peopleW 1 false [] id →
        ("Agent " ++ id ++ " not contained in any feasible committee.") ∈
          ["Agent p2 not contained in any feasible committee."])) :=
  ⟨⟨solveW_correct, by decide, by rfl⟩,
    C7_initial_committees_cover catsW peopleW 1 false [] solveW 0
      { committees := [{"p1"}], coveredAgents := {"p1"},
        lines := ["Agent p2 not contained in any feasible committee."],
        mwRounds := 0 }
      solveW_correct (by decide) (by rfl)⟩

/-- Claim C3 (amended): in the retry loop of `run_stratification`, every
`SelectionError` is caught and retried with fresh inputs — including the
`SelectionError` that `_setup_committee_generation` raises on solver
failure along the maximin/leximin/nash paths — while `ValueError`,
`InfeasibleQuotas` and `InfeasibleQuotasCantRelax` end the run
immediately.  (The spec says only legacy-sampler failures are retried;
the counterexample shows a maximin-path solver failure being retried.) -/
theorem C3_retry_routing (categories : Cats) (people : People)
    (columnsData : ColumnsData) (numberPeopleWanted : Nat) (settings : StratSettings)
    (testSelection : Bool) (numberSelections : Nat) (gurobiAvailable : Bool)
    (oracles : Nat → AttemptOracles) (tries fuel : Nat)
    (lastSelected : List (Finset String)) (lines : List String) (m : String)
    (q : List ((String × String) × Int × Int)) (output : List String) :
    (findRandomSample categories people columnsData numberPeopleWanted
        settings.checkSameAddress settings.checkSameAddressColumns
        settings.selectionAlgorithm testSelection numberSelections gurobiAvailable
        (oracles tries) = Except.error (PyErr.selectionError m) →
      runStratLoop categories people columnsData numberPeopleWanted settings testSelection
          numberSelections gurobiAvailable oracles tries (fuel + 1) lastSelected lines =
        runStratLoop categories people columnsData numberPeopleWanted settings
          testSelection numberSelections gurobiAvailable oracles (tries + 1) fuel []
          (lines ++ (if tries = 0 then
              printCategoryInfo categories people [] numberPeopleWanted else []) ++
            ["<b>Trial number: " ++ toString tries ++ "</b>"] ++
            ["Failed: Selection Error thrown: " ++ m])) ∧
    (findRandomSample categories people columnsData numberPeopleWanted
        settings.checkSameAddress settings.checkSameAddressColumns
        settings.selectionAlgorithm testSelection numberSelections gurobiAvailable
        (oracles tries) = Except.error (PyErr.valueError m) →
      runStratLoop categories people columnsData numberPeopleWanted settings testSelection
          numberSelections gurobiAvailable oracles tries (fuel + 1) lastSelected lines =
        Except.ok (false, [], lines ++ (if tries = 0 then
              printCategoryInfo categories people [] numberPeopleWanted else []) ++
            ["<b>Trial number: " ++ toString tries ++ "</b>"] ++ [m] ++
            ["Failed " ++ toString tries ++ " times... gave up."])) ∧
    (findRandomSample categories people columnsData numberPeopleWanted
        settings.checkSameAddress settings.checkSameAddressColumns
        settings.selectionAlgorithm testSelection numberSelections gurobiAvailable
        (oracles tries) = Except.error (PyErr.infeasibleQuotas q output) →
      runStratLoop categories people columnsData numberPeopleWanted settings testSelection
          numberSelections gurobiAvailable oracles tries (fuel + 1) lastSelected lines =
        Except.ok (false, [], lines ++ (if tries = 0 then
              printCategoryInfo categories people [] numberPeopleWanted else []) ++
            ["<b>Trial number: " ++ toString tries ++ "</b>"] ++ output ++
            ["Failed " ++ toString tries ++ " times... gave up."])) ∧
    (findRandomSample categories people columnsData numberPeopleWanted
        settings.checkSameAddress settings.checkSameAddressColumns
        settings.selectionAlgorithm testSelection numberSelections gurobiAvailable
        (oracles tries) = Except.error (PyErr.infeasibleQuotasCantRelax m) →
      runStratLoop categories people columnsData numberPeopleWanted settings testSelection
          numberSelections gurobiAvailable oracles tries (fuel + 1) lastSelected lines =
        Except.ok (false, [], lines ++ (if tries = 0 then
              printCategoryInfo categories people [] numberPeopleWanted else []) ++
            ["<b>Trial number: " ++ toString tries ++ "</b>"] ++ [m] ++
            ["Failed " ++ toString tries ++ " times... gave up."])) := by
  refine ⟨?_, ?_, ?_, ?_⟩
  · intro heq
    rw [runStratLoop, heq]
  · intro heq
    rw [runStratLoop, heq]
    rfl
  · intro heq
    rw [runStratLoop, heq]
    rfl
  · intro heq
    rw [runStratLoop, heq]
    rfl

/-- Witness for C3: a maximin-path solver failure (status neither optimal
nor infeasible) raises `SelectionError`, and the loop responds by starting
the next attempt. -/
theorem C3_retry_routing_witness :
    (findRandomSample catsW peopleW [] 1 false [] "maximin" false 1 true
        oraclesSolverFailure = Except.error (PyErr.selectionError
          "No feasible committees found, solver returns code 5 (see the python-mip documentation).")) ∧
    runStratLoop catsW peopleW [] 1 ⟨false, [], 2, "maximin", 0⟩ false 1 true
        (fun _ => oraclesSolverFailure) 0 (1 + 1) [] [] =
      runStratLoop catsW peopleW [] 1 ⟨false, [], 2, "maximin", 0⟩ false 1 true
        (fun _ => oraclesSolverFailure) (0 + 1) 1 []
        ([] ++ (if 0 = 0 then printCategoryInfo catsW peopleW [] 1 else []) ++
          ["<b>Trial number: " ++ toString 0 ++ "</b>"] ++
          ["Failed: Selection Error thrown: " ++
            "No feasible committees found, solver returns code 5 (see the python-mip documentation)."]) :=
  ⟨by rfl,
    (C3_retry_routing catsW peopleW [] 1 ⟨false, [], 2, "maximin", 0⟩ false 1 true
      (fun _ => oraclesSolverFailure) 0 1 [] []
      "No feasible committees found, solver returns code 5 (see the python-mip documentation)."
      [] []).1 (by rfl)⟩

/-- Counterexample to C3 as stated: with a failing solver on the maximin
path, the run does not stop at the first attempt — the output of the
second attempt (trial number 1) appears in the driver log, so the
maximin-path failure was retried. -/
theorem C3_counterexample :
    (runStratification catsW peopleW [] 1 [] ⟨false, [], 2, "maximin", 0⟩ false 1 true
        (fun _ => oraclesSolverFailure)).toOption.map
      (fun r => (r.1, decide (("<b>Trial number: 1</b>") ∈ r.2.2))) =
      some (false, true) := by
  rfl

/-! ### C2: lottery rounding -/

/-- Multiplying every entry by a constant multiplies the sum. -/
theorem sum_map_mul_const (c : ℚ) : ∀ (l : List ℚ),
    (l.map (fun p => p * c)).sum = l.sum * c := by
  intro l
  induction l with
  | nil => simp
  | cons x t ih => simp only [List.map_cons, List.sum_cons, ih]; ring

/-- Subtracting the truncation of every entry subtracts the truncation
sum. -/
theorem sum_map_sub_trunc : ∀ (l : List ℚ),
    (l.map (fun sp => sp - (pyTrunc sp : ℚ))).sum =
      l.sum - ((l.map (fun sp => pyTrunc sp)).sum : ℚ) := by
  intro l
  induction l with
  | nil => simp
  | cons x t ih =>
    simp only [List.map_cons, List.sum_cons, ih]
    push_cast
    ring

/-- Pointwise sums split. -/
theorem sum_map_add_nat {α : Type} (f g : α → Nat) : ∀ (l : List α),
    (l.map (fun i => f i + g i)).sum = (l.map f).sum + (l.map g).sum := by
  intro l
  induction l with
  | nil => rfl
  | cons x t ih => simp only [List.map_cons, List.sum_cons, ih]; omega

/-- A delta function sums to one over a duplicate-free list containing
its support point. -/
theorem sum_delta_nat (y : Nat) : ∀ (l : List Nat), l.Nodup → y ∈ l →
    (l.map (fun i => if y = i then 1 else 0)).sum = 1 := by
  intro l
  induction l with
  | nil => intro _ h; cases h
  | cons a t ih =>
    intro hn hm
    simp only [List.map_cons, List.sum_cons]
    by_cases hya : y = a
    · rw [if_pos hya]
      have ha : a ∉ t := (List.nodup_cons.mp hn).1
      have hz : (t.map (fun i => if y = i then 1 else 0)).sum = 0 := by
        refine List.sum_eq_zero ?_
        intro z hz
        rcases List.mem_map.mp hz with ⟨i, hi, rfl⟩
        rw [if_neg]
        intro hyi
        have hat : a ∈ t := by rw [hya.symm.trans hyi]; exact hi
        exact ha hat
      rw [hz]
    · have hm' : y ∈ t := by
        rcases List.mem_cons.mp hm with h | h
        · exact absurd h hya
        · exact h
      rw [if_neg hya, ih (List.nodup_cons.mp hn).2 hm', Nat.zero_add]

/-- Summing the occurrence counts of every index below `m` recovers the
length, provided all entries are below `m`. -/
theorem sum_count_range (m : Nat) : ∀ (l : List Nat), (∀ x ∈ l, x < m) →
    ((List.range m).map (fun i => l.count i)).sum = l.length := by
  intro l
  induction l with
  | nil => intro _; simp
  | cons y t ih =>
    intro hb
    have hstep : ((List.range m).map (fun i => (y :: t).count i)).sum =
        ((List.range m).map (fun i => t.count i + (if y = i then 1 else 0))).sum := by
      congr 1
      refine List.map_congr_left ?_
      intro i _
      rw [List.count_cons]
      congr 1
      by_cases h : y = i
      · rw [if_pos h, if_pos (by exact beq_iff_eq.mpr h)]
      · rw [if_neg h, if_neg (by simpa using h)]
    rw [hstep, sum_map_add_nat (fun i => t.count i) (fun i => if y = i then 1 else 0),
      ih (fun x hx => hb x (List.mem_cons_of_mem y hx)),
      sum_delta_nat y (List.range m) (List.nodup_range m)
        (List.mem_range.mpr (hb y (List.mem_cons_self y t)))]
    rfl

/-- Casting a sum of naturals into the integers. -/
theorem sum_map_natCast {α : Type} (f : α → Nat) : ∀ (l : List α),
    (l.map (fun i => (f i : Int))).sum = ((l.map f).sum : Int) := by
  intro l
  induction l with
  | nil => simp
  | cons x t ih => simp only [List.map_cons, List.sum_cons, Nat.cast_add, ih]

/-- A sum of `Int.toNat` values casts back to the plain sum when every
entry is nonnegative. -/
theorem sum_toNat_int : ∀ (l : List Int), (∀ x ∈ l, 0 ≤ x) →
    ((l.map Int.toNat).sum : Int) = l.sum := by
  intro l
  induction l with
  | nil => intro _; simp
  | cons x t ih =>
    intro hb
    simp only [List.map_cons, List.sum_cons, Nat.cast_add]
    rw [Int.toNat_of_nonneg (hb x (List.mem_cons_self x t)),
      ih (fun z hz => hb z (List.mem_cons_of_mem x hz))]

/-- Python `round` of an exact integer is that integer. -/
theorem pyRound_intCast (z : Int) : pyRound ((z : Int) : ℚ) = z := by
  unfold pyRound
  rw [Int.floor_intCast, sub_self]
  norm_num

/-- Python `int()` truncation is the floor on nonnegative inputs. -/
theorem pyTrunc_of_nonneg (q : ℚ) (h : 0 ≤ q) : pyTrunc q = ⌊q⌋ := by
  unfold pyTrunc
  exact if_pos h

/-- Pipage rounding never returns an object more often than it occurs in
the input marginals: every output entry is drawn from the input keys. -/
theorem pipageRounding_count {α : Type} [DecidableEq α] (o : Nat → ℚ) :
    ∀ (fuel : Nat) (ms : List (α × ℚ)) (t : Nat) (r : List α × Nat),
      pipageRounding o fuel ms t = some r →
      ∀ x, r.1.count x ≤ (ms.map Prod.fst).count x := by
  intro fuel
  induction fuel with
  | zero =>
    intro ms t r h x
    rw [pipageRounding] at h
    cases h
  | succ fuel ih =>
    intro ms t r h x
    match ms with
    | [] =>
      rw [pipageRounding] at h
      cases h
      simp
    | [m] =>
      rw [pipageRounding] at h
      split_ifs at h
      · cases h
        simp
      · cases h
        simp
    | m0 :: m1 :: rest =>
      rw [pipageRounding] at h
      dsimp only at h
      split_ifs at h with h1 h2 h3 h4 h5
      · rcases Option.map_eq_some'.mp h with ⟨r', hr', heq⟩
        cases heq
        have hrec := ih (m1 :: rest) t r' hr' x
        simp only [List.map_cons, List.count_cons] at hrec ⊢
        split_ifs at hrec ⊢ <;> omega
      · have hrec := ih (m1 :: rest) t r h x
        simp only [List.map_cons, List.count_cons] at hrec ⊢
        split_ifs at hrec ⊢ <;> omega
      · rcases Option.map_eq_some'.mp h with ⟨r', hr', heq⟩
        cases heq
        have hrec := ih (m0 :: rest) t r' hr' x
        simp only [List.map_cons, List.count_cons] at hrec ⊢
        split_ifs at hrec ⊢ <;> omega
      · have hrec := ih (m0 :: rest) t r h x
        simp only [List.map_cons, List.count_cons] at hrec ⊢
        split_ifs at hrec ⊢ <;> omega
      · have hrec := ih _ _ _ h x
        simpa using hrec
      · have hrec := ih _ _ _ h x
        simpa using hrec

/-- The residual list is as long as the probability list. -/
theorem residualsOf_length (probabilities : List ℚ) (n : Nat) :
    (residualsOf probabilities n).length = probabilities.length := by
  simp [residualsOf, scaledProbabilities]

/-- The copy-count list is as long as the probability list. -/
theorem numCopiesOf_length (probabilities : List ℚ) (n : Nat) :
    (numCopiesOf probabilities n).length = probabilities.length := by
  simp [numCopiesOf, scaledProbabilities]

/-- Length of the adjusted copy-count list. -/
theorem finalCopiesOf_length (probabilities : List ℚ) (n : Nat) (m : Nat)
    (picked : List Nat) :
    (finalCopiesOf probabilities n m picked).length = min probabilities.length m := by
  simp [finalCopiesOf, numCopiesOf, scaledProbabilities]

/-- With a distribution summing to one, the scaled probabilities sum to
the number of selections. -/
theorem scaledProbabilities_sum (probabilities : List ℚ) (n : Nat)
    (h : probabilities.sum = 1) :
    (scaledProbabilities probabilities n).sum = (n : ℚ) := by
  unfold scaledProbabilities
  rw [sum_map_mul_const, h, one_mul]

/-- The residual sum is the scaled sum minus the integer copy total. -/
theorem residualsOf_sum (probabilities : List ℚ) (n : Nat) :
    (residualsOf probabilities n).sum =
      (scaledProbabilities probabilities n).sum - ((numCopiesOf probabilities n).sum : ℚ) := by
  unfold residualsOf numCopiesOf
  exact sum_map_sub_trunc (scaledProbabilities probabilities n)

/-- With nonnegative probabilities every integer copy count is
nonnegative. -/
theorem numCopiesOf_nonneg (probabilities : List ℚ) (n : Nat)
    (h : ∀ p ∈ probabilities, 0 ≤ p) :
    ∀ x ∈ numCopiesOf probabilities n, 0 ≤ x := by
  intro x hx
  rcases List.mem_map.mp hx with ⟨sp, hsp, rfl⟩
  rcases List.mem_map.mp hsp with ⟨p, hp, rfl⟩
  have h0 : (0 : ℚ) ≤ p * (n : ℚ) := mul_nonneg (h p hp) (by positivity)
  rw [pyTrunc_of_nonneg _ h0]
  exact Int.floor_nonneg.mpr h0

/-- Summing a zip-with-add against index counts splits the sum. -/
theorem sum_zip_add_count (g : Nat → Int) :
    ∀ (l1 : List Int) (l2 : List Nat), l1.length = l2.length →
      ((l1.zip l2).map (fun ci => ci.1 + g ci.2)).sum = l1.sum + (l2.map g).sum := by
  intro l1
  induction l1 with
  | nil =>
    intro l2 h
    cases l2 with
    | nil => simp
    | cons b u => simp at h
  | cons a t ih =>
    intro l2 h
    cases l2 with
    | nil => simp at h
    | cons b u =>
      simp only [List.zip_cons_cons, List.map_cons, List.sum_cons]
      rw [ih u (by simpa using h)]
      ring

/-- Total of the adjusted copy counts: the integer copies plus one unit
per pipage-selected index. -/
theorem finalCopiesOf_sum (probabilities : List ℚ) (n : Nat) (m : Nat)
    (picked : List Nat) (hm : probabilities.length = m)
    (hpk : ∀ x ∈ picked, x < m) :
    (finalCopiesOf probabilities n m picked).sum =
      (numCopiesOf probabilities n).sum + (picked.length : Int) := by
  unfold finalCopiesOf
  rw [sum_zip_add_count (fun i => (picked.count i : Int)) _ _
    (by simp [numCopiesOf, scaledProbabilities, hm])]
  rw [sum_map_natCast (fun i => picked.count i) (List.range m),
    sum_count_range m picked hpk]

/-- Every adjusted copy count is nonnegative when the probabilities
are. -/
theorem finalCopiesOf_nonneg (probabilities : List ℚ) (n : Nat) (m : Nat)
    (picked : List Nat) (h : ∀ p ∈ probabilities, 0 ≤ p) :
    ∀ x ∈ finalCopiesOf probabilities n m picked, 0 ≤ x := by
  intro x hx
  rcases List.mem_map.mp hx with ⟨ci, hci, rfl⟩
  have h1 : ci.1 ∈ numCopiesOf probabilities n := (List.of_mem_zip hci).1
  have h2 : (0 : Int) ≤ (picked.count ci.2 : Int) := Int.natCast_nonneg _
  exact add_nonneg (numCopiesOf_nonneg probabilities n h ci.1 h1) h2

/-- Length of the final lottery: the total of the (clamped) copy
counts. -/
theorem lotteryOutput_length {α : Type} :
    ∀ (coms : List α) (fc : List Int), coms.length = fc.length →
      (lotteryOutput coms fc).length = (fc.map Int.toNat).sum := by
  intro coms
  induction coms with
  | nil =>
    intro fc h
    cases fc with
    | nil => rfl
    | cons f ft => simp at h
  | cons c ct ih =>
    intro fc h
    cases fc with
    | nil => simp at h
    | cons f ft =>
      show (List.replicate f.toNat c ++ (lotteryOutput ct ft)).length = _
      rw [List.length_append, List.length_replicate, ih ft (by simpa using h)]
      simp

/-- Everything in the final lottery is one of the input committees. -/
theorem mem_lotteryOutput {α : Type} (x : α) (coms : List α) (fc : List Int)
    (hx : x ∈ lotteryOutput coms fc) : x ∈ coms := by
  rcases List.mem_flatten.mp hx with ⟨blk, hblk, hxb⟩
  rcases List.mem_map.mp hblk with ⟨cc, hcc, rfl⟩
  rcases List.mem_replicate.mp hxb with ⟨-, rfl⟩
  exact (List.of_mem_zip hcc).1

/-- With distinct committees, the lottery contains the committee at
position `i` exactly as often as its (clamped) copy count. -/
theorem count_lotteryOutput {α : Type} [DecidableEq α] :
    ∀ (coms : List α) (fc : List Int), coms.Nodup → coms.length = fc.length →
      ∀ (i : Nat) (hic : i < coms.length) (hif : i < fc.length),
        (lotteryOutput coms fc).count (coms.get ⟨i, hic⟩) = (fc.get ⟨i, hif⟩).toNat := by
  intro coms
  induction coms with
  | nil =>
    intro fc _ _ i hic
    exact absurd hic (Nat.not_lt_zero i)
  | cons c ct ih =>
    intro fc hnd h i hic hif
    cases fc with
    | nil => simp at h
    | cons f ft =>
      have hsplit : lotteryOutput (c :: ct) (f :: ft) =
          List.replicate f.toNat c ++ lotteryOutput ct ft := rfl
      rw [hsplit, List.count_append]
      cases i with
      | zero =>
        have hget : (c :: ct).get ⟨0, hic⟩ = c := rfl
        have hgf : (f :: ft).get ⟨0, hif⟩ = f := rfl
        rw [hget, hgf, List.count_replicate_self]
        have hzero : (lotteryOutput ct ft).count c = 0 := by
          rw [List.count_eq_zero]
          intro hmem
          exact (List.nodup_cons.mp hnd).1 (mem_lotteryOutput c ct ft hmem)
        rw [hzero]
        omega
      | succ j =>
        have hic' : j < ct.length := by simpa using hic
        have hif' : j < ft.length := by simpa using hif
        have hget : (c :: ct).get ⟨j + 1, hic⟩ = ct.get ⟨j, hic'⟩ := rfl
        have hgf : (f :: ft).get ⟨j + 1, hif⟩ = ft.get ⟨j, hif'⟩ := rfl
        rw [hget, hgf]
        have hne : ct.get ⟨j, hic'⟩ ≠ c := by
          intro hcc
          exact (List.nodup_cons.mp hnd).1 (hcc ▸ List.get_mem ct j hic')
        have hrep : (List.replicate f.toNat c).count (ct.get ⟨j, hic'⟩) = 0 := by
          rw [List.count_eq_zero]
          intro hmem
          exact hne (List.mem_replicate.mp hmem).2
        rw [hrep, ih ft (List.nodup_cons.mp hnd).2 (by simpa using h) j hic' hif']
        omega

/-- The adjusted copy count at position `i`: the floor of the scaled
probability, plus one if pipage selected index `i`. -/
theorem finalCopiesOf_get (probabilities : List ℚ) (n : Nat) (m : Nat)
    (picked : List Nat) (i : Nat) (hif : i < (finalCopiesOf probabilities n m picked).length)
    (hip : i < probabilities.length) (him : i < m) :
    (finalCopiesOf probabilities n m picked).get ⟨i, hif⟩ =
      pyTrunc (probabilities.get ⟨i, hip⟩ * (n : ℚ)) + (picked.count i : Int) := by
  simp [finalCopiesOf, numCopiesOf, scaledProbabilities, List.get_eq_getElem,
    List.getElem_map, List.getElem_zip, List.getElem_range]

/-- Claim C2 (amended): whenever `lottery_rounding` returns — the input
committees being distinct, the probabilities lying in `[0, 1]` and summing
to one — the returned lottery has exactly `number_selections` entries and
contains the committee of probability `p` either `⌊n·p⌋` or `⌊n·p⌋ + 1`
times.  (As stated the claim is false: for adversarial `random.random()`
draws the function raises `AssertionError` instead of returning — see the
counterexample.) -/
theorem C2_lottery_rounding {α : Type} [DecidableEq α] (committees : List α)
    (probabilities : List ℚ) (numberSelections : Nat) (o : Nat → ℚ) (L : List α)
    (hnd : committees.Nodup)
    (hnn : ∀ p ∈ probabilities, 0 ≤ p ∧ p ≤ 1)
    (hsum : probabilities.sum = 1)
    (hok : lotteryRounding committees probabilities numberSelections o = Except.ok L) :
    L.length = numberSelections ∧
    ∀ (i : Nat) (hi : i < committees.length) (hip : i < probabilities.length),
      (L.count (committees.get ⟨i, hi⟩) : Int) =
          ⌊probabilities.get ⟨i, hip⟩ * (numberSelections : ℚ)⌋ ∨
      (L.count (committees.get ⟨i, hi⟩) : Int) =
          ⌊probabilities.get ⟨i, hip⟩ * (numberSelections : ℚ)⌋ + 1 := by
  unfold lotteryRounding at hok
  split_ifs at hok with hg1 hg2 hg3 hg4
  split at hok
  · cases hok
  rename_i r hpi
  split_ifs at hok with hg5
  simp only [pure, Except.pure] at hok
  cases hok
  have hlen : committees.length = probabilities.length := hg1
  have hnn0 : ∀ p ∈ probabilities, 0 ≤ p := fun p hp => (hnn p hp).1
  have hcnt := pipageRounding_count o _ _ _ _ hpi
  rw [List.map_fst_zip _ _
    (by simp [List.length_range, residualsOf_length, hlen])] at hcnt
  have hpk : ∀ x ∈ r.1, x < committees.length := by
    intro x hx
    by_contra hge
    have h0 : (List.range committees.length).count x = 0 := by
      rw [List.count_eq_zero]
      intro hmem
      exact hge (List.mem_range.mp hmem)
    have hc0 := hcnt x
    rw [h0, Nat.le_zero, List.count_eq_zero] at hc0
    exact hc0 hx
  have hcle1 : ∀ x, r.1.count x ≤ 1 := by
    intro x
    exact le_trans (hcnt x) (List.nodup_iff_count_le_one.mp (List.nodup_range _) x)
  have hlenr : (r.1.length : Int) =
      (numberSelections : Int) - (numCopiesOf probabilities numberSelections).sum := by
    have hres : (residualsOf probabilities numberSelections).sum =
        ((((numberSelections : Int) -
          (numCopiesOf probabilities numberSelections).sum) : Int) : ℚ) := by
      rw [residualsOf_sum, scaledProbabilities_sum probabilities numberSelections hsum]
      push_cast
      ring
    have hg5a := hg5
    rw [hres, pyRound_intCast] at hg5a
    omega
  have hfcsum :
      (finalCopiesOf probabilities numberSelections committees.length r.1).sum =
        (numberSelections : Int) := by
    rw [finalCopiesOf_sum probabilities numberSelections committees.length r.1
      hlen.symm hpk]
    omega
  have hfcnn := finalCopiesOf_nonneg probabilities numberSelections
    committees.length r.1 hnn0
  have hfclen :
      (finalCopiesOf probabilities numberSelections committees.length r.1).length =
        committees.length := by
    rw [finalCopiesOf_length]
    omega
  constructor
  · rw [lotteryOutput_length committees _ hfclen.symm]
    have hcast := sum_toNat_int _ hfcnn
    rw [hfcsum] at hcast
    exact_mod_cast hcast
  · intro i hi hip
    have hif : i < (finalCopiesOf probabilities numberSelections
        committees.length r.1).length := by omega
    rw [count_lotteryOutput committees _ hnd hfclen.symm i hi hif]
    rw [finalCopiesOf_get probabilities numberSelections committees.length r.1 i
      hif hip hi]
    have hpmem : probabilities.get ⟨i, hip⟩ ∈ probabilities :=
      List.get_mem probabilities i hip
    have hp0 : (0 : ℚ) ≤ probabilities.get ⟨i, hip⟩ * (numberSelections : ℚ) :=
      mul_nonneg (hnn _ hpmem).1 (by positivity)
    rw [pyTrunc_of_nonneg _ hp0]
    have hfl : (0 : Int) ≤ ⌊probabilities.get ⟨i, hip⟩ * (numberSelections : ℚ)⌋ :=
      Int.floor_nonneg.mpr hp0
    have htn : ((⌊probabilities.get ⟨i, hip⟩ * (numberSelections : ℚ)⌋ +
        (r.1.count i : Int)).toNat : Int) =
        ⌊probabilities.get ⟨i, hip⟩ * (numberSelections : ℚ)⌋ + (r.1.count i : Int) := by
      rw [Int.toNat_of_nonneg]
      exact add_nonneg hfl (Int.natCast_nonneg _)
    rw [htn]
    rcases Nat.le_one_iff_eq_zero_or_eq_one.mp (hcle1 i) with hc | hc
    · left
      rw [hc]
      simp
    · right
      rw [hc]
      simp

/-- Witness for C2 at the distribution `(1/4, 3/4)` with four
selections. -/
theorem C2_lottery_rounding_witness :
    (([({"X"} : Finset String), {"Y"}]).Nodup ∧
      (∀ p ∈ [(1 : ℚ)/4, 3/4], 0 ≤ p ∧ p ≤ 1) ∧
      ([(1 : ℚ)/4, 3/4]).sum = 1 ∧
      lotteryRounding [({"X"} : Finset String), {"Y"}] [1/4, 3/4] 4 (fun _ => 0) =
        Except.ok [{"X"}, {"Y"}, {"Y"}, {"Y"}]) ∧
    (([({"X"} : Finset String), {"Y"}, {"Y"}, {"Y"}]).length = 4 ∧
      ∀ (i : Nat) (hi : i < ([({"X"} : Finset String), {"Y"}]).length)
        (hip : i < ([(1 : ℚ)/4, 3/4]).length),
        (([({"X"} : Finset String), {"Y"}, {"Y"}, {"Y"}]).count
            (([({"X"} : Finset String), {"Y"}]).get ⟨i, hi⟩) : Int) =
            ⌊([(1 : ℚ)/4, 3/4]).get ⟨i, hip⟩ * ((4 : Nat) : ℚ)⌋ ∨
        (([({"X"} : Finset String), {"Y"}, {"Y"}, {"Y"}]).count
            (([({"X"} : Finset String), {"Y"}]).get ⟨i, hi⟩) : Int) =
            ⌊([(1 : ℚ)/4, 3/4]).get ⟨i, hip⟩ * ((4 : Nat) : ℚ)⌋ + 1) :=
  ⟨⟨by decide, by norm_num, by norm_num, by with_unfolding_all rfl⟩,
    C2_lottery_rounding [{"X"}, {"Y"}] [1/4, 3/4] 4 (fun _ => 0)
      [{"X"}, {"Y"}, {"Y"}, {"Y"}]
      (by decide) (by norm_num) (by norm_num) (by with_unfolding_all rfl)⟩

/-- Counterexample to C2 as stated: a valid two-committee distribution
with `number_selections = 1` on which `lottery_rounding` raises
`AssertionError` instead of returning a list — the adversarial
`random.random()` draw makes pipage rounding return no index although the
residual sum rounds to one. -/
theorem C2_counterexample :
    lotteryRounding [({"A"} : Finset String), {"B"}]
        [1/1000000000, 999999999/1000000000] 1 (fun _ => 1 - 1/10000000000) =
      Except.error PyErr.assertionError ∧
    ([({"A"} : Finset String), {"B"}]).Nodup ∧
    (∀ p ∈ [(1 : ℚ)/1000000000, 999999999/1000000000], 0 ≤ p ∧ p ≤ 1) ∧
    ([(1 : ℚ)/1000000000, 999999999/1000000000]).sum = 1 ∧
    (1 : Nat) ≤ 1 :=
  ⟨by with_unfolding_all rfl, by decide, by norm_num, by norm_num, le_refl 1⟩
